import Mathlib

/-!
Verification development for the IVD monitor enrichment and ingestion core
(`src/ivd_monitor/company_matching.py`, `categorization.py`, `database.py`).

Modelling conventions:
* Python `dict`s become association lists (`List (key × value)`) with
  insertion-order iteration; `dictSet` mirrors `d[k] = v` (update in place,
  append at end when fresh) and `dictGet` mirrors `d.get(k)`.
* Python sets are modelled as lists used only through membership.
* Strings are Lean `String`s; `str.lower()` is character-wise ASCII case
  folding (identity on CJK, matching CPython for the data involved).
* Scores are integer-valued floats in the source and are modelled as `Nat`.
* The external `rapidfuzz` library (not part of this repository) is
  abstracted: `Matcher.extract` stands for `process.extract` with the
  configured scorer, limit and cutoff.
-/

set_option autoImplicit false

namespace IVD

instance {α β : Type} [DecidableEq α] [DecidableEq β] : DecidableEq (Except α β)
  | Except.error a, Except.error b =>
    if h : a = b then Decidable.isTrue (h ▸ rfl)
    else Decidable.isFalse (fun hc => h (by injection hc))
  | Except.error _, Except.ok _ => Decidable.isFalse (fun hc => by injection hc)
  | Except.ok _, Except.error _ => Decidable.isFalse (fun hc => by injection hc)
  | Except.ok a, Except.ok b =>
    if h : a = b then Decidable.isTrue (h ▸ rfl)
    else Decidable.isFalse (fun hc => h (by injection hc))

/-- Python truthiness of an optional string: `None` and `""` are falsy. -/
def strFalsy : Option String → Bool
  | none => true
  | some s => s == ""

/-- Python `a or b` for an optional string `a` (falsy means `None` or `""`). -/
def pyOr (a : Option String) (b : String) : String :=
  match a with
  | none => b
  | some s => if s = "" then b else s

/-- `pat` is a prefix of `text` (exact character equality). -/
def litPre : List Char → List Char → Bool
  | [], _ => true
  | _ :: _, [] => false
  | p :: ps, c :: cs => p == c && litPre ps cs

/-- `pat` occurs as a contiguous substring of `text` (Python `pat in text`). -/
def containsSub : List Char → List Char → Bool
  | pat, [] => pat.isEmpty
  | pat, c :: cs => litPre pat (c :: cs) || containsSub pat cs

/-- Substring test on `String`s. -/
def strContains (text pat : String) : Bool :=
  containsSub pat.data text.data

/-- Python `\s` character class (ASCII part). -/
def isPyWs (c : Char) : Bool :=
  c == ' ' || c == '\t' || c == '\n' || c == '\r' ||
  c == Char.ofNat 11 || c == Char.ofNat 12

/-- `str.lower()`: character-wise ASCII case folding, as CPython for the
data involved (identity on CJK). Implemented over `.data` so that it
reduces in the kernel. -/
def strLower (s : String) : String := String.mk (s.data.map Char.toLower)

/-- Strip leading/trailing whitespace from a character list (`str.strip`). -/
def stripChars (l : List Char) : List Char :=
  ((l.dropWhile isPyWs).reverse.dropWhile isPyWs).reverse

/-- `str.strip()`. -/
def strStrip (s : String) : String := String.mk (stripChars s.data)

/-- `sep.join(parts)`. -/
def joinWith (sep : String) : List String → String
  | [] => ""
  | [x] => x
  | x :: xs => x ++ sep ++ joinWith sep xs

/-- `pat` is a case-insensitive prefix of `text`. -/
def litPreCI : List Char → List Char → Bool
  | [], _ => true
  | _ :: _, [] => false
  | p :: ps, c :: cs => p.toLower == c.toLower && litPreCI ps cs

/-- First case-insensitive occurrence of `key` in `text`, returned as the
matched slice of `text` (models `re.search` of an escaped pattern with
`re.IGNORECASE` followed by `.group(0)`). -/
def firstOccCI (key : List Char) : List Char → Option (List Char)
  | [] => if key.isEmpty then some [] else none
  | c :: cs =>
    if litPreCI key (c :: cs) then some ((c :: cs).take key.length)
    else firstOccCI key cs

/-- Association-list update mirroring Python `d[k] = v`: the first entry with
the key is replaced in place, a fresh key is appended at the end. -/
def dictSet {α : Type} : List (String × α) → String → α → List (String × α)
  | [], k, v => [(k, v)]
  | (k', v') :: rest, k, v =>
    if k' = k then (k, v) :: rest else (k', v') :: dictSet rest k v

/-- Association-list lookup mirroring Python `d.get(k)`. -/
def dictGet {α : Type} (m : List (String × α)) (k : String) : Option α :=
  (m.find? (fun kv => kv.1 = k)).map (fun kv => kv.2)

/-- Python `d.setdefault(k, v)`. -/
def dictSetdefault {α : Type} (m : List (String × α)) (k : String) (v : α) :
    List (String × α) :=
  match dictGet m k with
  | some _ => m
  | none => dictSet m k v

/-- Python `{**a, **b}`. -/
def dictMerge {α : Type} (a b : List (String × α)) : List (String × α) :=
  b.foldl (fun acc kv => dictSet acc kv.1 kv.2) a

/-! ## Company matching (`company_matching.py`) -/

/-- One entry of the company dataset consumed at matcher construction. -/
structure Company where
  name : String
  english_name : Option String
  aliases : List String
  keywords : List String
deriving DecidableEq

/-- `CompanyMatch` dataclass. -/
structure CompanyMatch where
  company_name : String
  matched_text : String
  score : Nat
  match_type : String
deriving DecidableEq

/-- Metadata dictionary carried by an item, with the keys the core inspects
made explicit (`none` models both an absent key and a malformed value, which
the source ignores) plus free-form extra entries. -/
structure Metadata where
  companies_override : Option (List String) := none
  company_hints : Option (List String) := none
  company_overrides : Option (List (String × String)) := none
  company_blacklist_terms : Option (List String) := none
  company_blacklist : Option (List String) := none
  category_override : Option String := none
  category : Option String := none
  extra : List (String × String) := []
deriving DecidableEq

/-- Empty metadata dictionary. -/
def Metadata.empty : Metadata := {}

/-- The `CompanyMatcher` state after `_load_companies`: the raw dataset, the
three lookup tables (keys lowercased at load), construction-time overrides and
blacklist, and the abstracted `rapidfuzz` extraction function. -/
structure Matcher where
  companies : List Company
  companyLookup : List (String × String)
  aliasLookup : List (String × String)
  keywordLookup : List (String × String)
  manualOverrides : List (String × String)
  blacklist : List String
  extract : String → List String → List (String × Nat)

/-- `_load_companies`: build the three lookup tables from the dataset. -/
def loadLookups (companies : List Company) :
    List (String × String) × List (String × String) × List (String × String) :=
  companies.foldl
    (fun acc c =>
      let cl := dictSet acc.1 (strLower c.name) c.name
      let cl := match c.english_name with
        | some e => dictSet cl (strLower e) c.name
        | none => cl
      let al := c.aliases.foldl (fun al a => dictSet al (strLower a) c.name) acc.2.1
      let kl := c.keywords.foldl (fun kl k => dictSet kl (strLower k) c.name) acc.2.2
      (cl, al, kl))
    ([], [], [])

/-- Helper loop of `_canonicalize_name` over the raw company list. -/
def findCompanyByName : List Company → String → Option String
  | [], _ => none
  | c :: rest, lowered =>
    if strLower c.name = lowered then some c.name
    else
      match c.english_name with
      | some e =>
        if strLower e = lowered then some c.name else findCompanyByName rest lowered
      | none => findCompanyByName rest lowered

/-- `CompanyMatcher._canonicalize_name`. -/
def Matcher.canonicalizeName (m : Matcher) (name : String) : Option String :=
  if name = "" then none
  else
    let lowered := strLower name
    match dictGet m.companyLookup lowered with
    | some n => some n
    | none =>
      match dictGet m.aliasLookup lowered with
      | some n => some n
      | none => findCompanyByName m.companies lowered

/-- `_unique_preserve_order` with its explicit `seen` set. -/
def uniquePreserveOrderAux (seen : List String) : List String → List String
  | [] => []
  | v :: rest =>
    if v = "" then uniquePreserveOrderAux seen rest
    else if v ∈ seen then uniquePreserveOrderAux seen rest
    else v :: uniquePreserveOrderAux (v :: seen) rest

/-- `_unique_preserve_order`: unique truthy values in first-seen order. -/
def uniquePreserveOrder (l : List String) : List String :=
  uniquePreserveOrderAux [] l

/-- `CompanyMatcher.normalize_names`. -/
def Matcher.normalizeNames (m : Matcher) (names : List String) : List String :=
  uniquePreserveOrder (names.map (fun n => pyOr (m.canonicalizeName n) n))

/-- `_combine_text`: title and summary are duplicated, then all parts joined. -/
def combineText (text : String) (title summary : Option String) : String :=
  let parts : List String :=
    (match title with | some t => if t = "" then [] else [t, t] | none => []) ++
    (match summary with | some s => if s = "" then [] else [s, s] | none => []) ++
    (if text = "" then [] else [text])
  joinWith " " parts

/-- `_match_overrides`: substring check of each (lowercased) pattern against
the lowercased text. -/
def matchOverrides (text : String) (overrides : List (String × String)) :
    List CompanyMatch :=
  let tl := strLower text
  overrides.filterMap (fun pc =>
    if strContains tl pc.1 then
      some ⟨pc.2, pc.1, 100, "override"⟩
    else none)

/-- `_match_exact`: case-insensitive substring matching of canonical/English
names, recording the matched slice of the original text. -/
def Matcher.matchExact (m : Matcher) (text : String) : List CompanyMatch :=
  let tl := strLower text
  m.companyLookup.filterMap (fun kv =>
    if strContains tl kv.1 then
      let mt := match firstOccCI kv.1.data text.data with
        | some s => String.mk s
        | none => kv.1
      some ⟨kv.2, mt, 100, "exact"⟩
    else none)

/-- `_match_aliases`: like `_match_exact` over the alias table, score 95. -/
def Matcher.matchAliases (m : Matcher) (text : String) : List CompanyMatch :=
  let tl := strLower text
  m.aliasLookup.filterMap (fun kv =>
    if strContains tl kv.1 then
      let mt := match firstOccCI kv.1.data text.data with
        | some s => String.mk s
        | none => kv.1
      some ⟨kv.2, mt, 95, "alias"⟩
    else none)

/-- Keyword-table entries whose keyword occurs in the lowered text and whose
company is not name-blacklisted (the guard inside `_match_keywords`' first
loop). -/
def Matcher.matchingKeywordEntries (m : Matcher) (tl : String)
    (blacklist : List String) : List (String × String) :=
  m.keywordLookup.filter (fun kv =>
    strContains tl kv.1 && !(blacklist.contains kv.2))

/-- First-seen-order deduplication (Python dict key order), with an explicit
`seen` accumulator. -/
def dedupFirstAux (seen : List String) : List String → List String
  | [] => []
  | v :: rest =>
    if v ∈ seen then dedupFirstAux seen rest
    else v :: dedupFirstAux (v :: seen) rest

/-- First-seen-order deduplication (Python dict key order). -/
def dedupFirst (l : List String) : List String := dedupFirstAux [] l

/-- The `keyword_counts` dict of `_match_keywords`: for each company in
first-occurrence order, the number of its matching keywords and the first
matching keyword. -/
def Matcher.keywordCounts (m : Matcher) (tl : String) (blacklist : List String) :
    List (String × Nat × String) :=
  let entries := m.matchingKeywordEntries tl blacklist
  (dedupFirst (entries.map (fun kv => kv.2))).map (fun c =>
    let cEntries := entries.filter (fun kv => kv.2 = c)
    (c, cEntries.length, (cEntries.head?.map (fun kv => kv.1)).getD ""))

/-- `_match_keywords`: a company is credited only with at least two distinct
matching keywords; score `min(70 + 5 * count, 90)`. -/
def Matcher.matchKeywords (m : Matcher) (text : String) (blacklist : List String) :
    List CompanyMatch :=
  let tl := strLower text
  (m.keywordCounts tl blacklist).filterMap (fun cnk =>
    if cnk.2.1 ≥ 2 then
      some ⟨cnk.1, cnk.2.2, min (70 + cnk.2.1 * 5) 90, "keyword"⟩
    else none)

/-- Character class of `_extract_segments`' splitting pattern. -/
def isSegmentDelim (c : Char) : Bool :=
  c ∈ ['，', '。', '、', '；', '：', '！', '？', ',', '.', ':', ';', '!', '?',
       '(', ')', '[', ']', '{', '}'] || c.isWhitespace

/-- Split a character list at delimiter characters. Python's `re.split` on
the `[...]+` class collapses delimiter runs; splitting at single delimiters
instead introduces only extra empty pieces, which the length-2 filter that
follows discards, so the final segment list is identical. -/
def splitSegments : List Char → List Char → List (List Char)
  | acc, [] => [acc.reverse]
  | acc, c :: cs =>
    if isSegmentDelim c then acc.reverse :: splitSegments [] cs
    else splitSegments (c :: acc) cs

/-- `_extract_segments`: candidate segments of length 2–24 after stripping. -/
def extractSegments (text : String) : List String :=
  ((splitSegments [] text.data).map stripChars).filterMap (fun seg =>
    if 2 ≤ seg.length ∧ seg.length ≤ 24 then some (String.mk seg) else none)

/-- `_match_fuzzy`: fuzzy matching over not-yet-matched, not-blacklisted
terms, with the mutated `exclude` set threaded through, using the abstracted
`rapidfuzz` extraction. -/
def Matcher.matchFuzzy (m : Matcher) (text : String) (exclude : List String)
    (blacklist : List String) : List CompanyMatch :=
  let searchable := dictMerge m.companyLookup m.aliasLookup
  let available := searchable.filter (fun kv =>
    !(exclude.contains kv.2) && !(blacklist.contains kv.2))
  if available.isEmpty then []
  else
    let segments := extractSegments text
    (segments.foldl (fun st seg =>
      if seg.length < 2 then st
      else
        (m.extract seg (available.map (fun kv => kv.1))).foldl (fun st ts =>
          match dictGet available ts.1 with
          | none => st
          | some c =>
            if st.2.contains c || blacklist.contains c then st
            else (st.1 ++ [⟨c, seg, ts.2, "fuzzy"⟩], c :: st.2)) st)
      (([] : List CompanyMatch), exclude)).1

/-- `_is_blacklisted`: the matched text contains a blacklisted substring. -/
def isBlacklistedText (text : String) (terms : List String) : Bool :=
  let lowered := strLower text
  terms.any (fun term => strContains lowered (strLower term))

/-- Insertion sort on strings (Python `sorted` over code points). -/
def insertSorted (x : String) : List String → List String
  | [] => [x]
  | y :: ys => if x ≤ y then x :: y :: ys else y :: insertSorted x ys

/-- Python `sorted` on a list of strings. -/
def sortStrings (l : List String) : List String := l.foldr insertSorted []

/-- The `pattern_overrides` dict of `match_companies`: construction-time
manual overrides first, then per-item metadata overrides, keys lowercased and
company names canonicalized. -/
def Matcher.patternOverridesOf (m : Matcher) (md : Metadata) :
    List (String × String) :=
  let pov := m.manualOverrides.foldl
    (fun acc pc => dictSet acc (strLower pc.1) (pyOr (m.canonicalizeName pc.2) pc.2)) []
  match md.company_overrides with
  | some l => l.foldl
      (fun acc pc => dictSet acc (strLower pc.1) (pyOr (m.canonicalizeName pc.2) pc.2)) pov
  | none => pov

/-- The `text_blacklist_terms` set: construction-time blacklist plus per-item
`company_blacklist_terms` (used only through membership). -/
def Matcher.textBlacklistOf (m : Matcher) (md : Metadata) : List String :=
  m.blacklist ++ md.company_blacklist_terms.getD []

/-- The `name_blacklist` set: canonicalized `company_blacklist` entries. -/
def Matcher.nameBlacklistOf (m : Matcher) (md : Metadata) : List String :=
  (md.company_blacklist.getD []).map (fun e => pyOr (m.canonicalizeName e) e)

/-- Register matches by direct dict assignment, skipping name-blacklisted
companies (the pattern-override registration loop). -/
def stageAssign (ms : List CompanyMatch) (nameBl : List String)
    (acc : List (String × CompanyMatch)) : List (String × CompanyMatch) :=
  ms.foldl (fun acc mt =>
    if nameBl.contains mt.company_name then acc
    else dictSet acc mt.company_name mt) acc

/-- Register matches by `setdefault`, skipping name-blacklisted companies
(the exact, alias and fuzzy registration loops). -/
def stageSetdefault (ms : List CompanyMatch) (nameBl : List String)
    (acc : List (String × CompanyMatch)) : List (String × CompanyMatch) :=
  ms.foldl (fun acc mt =>
    if nameBl.contains mt.company_name then acc
    else dictSetdefault acc mt.company_name mt) acc

/-- The hint registration loop: canonicalized hints are force-included at
score 100 by direct dict assignment. -/
def stageHints (m : Matcher) (hints : List String) (nameBl : List String)
    (acc : List (String × CompanyMatch)) : List (String × CompanyMatch) :=
  hints.foldl (fun acc h =>
    let canonical := pyOr (m.canonicalizeName h) h
    if canonical ≠ "" && !(nameBl.contains canonical) then
      dictSet acc canonical ⟨canonical, h, 100, "hint"⟩
    else acc) acc

/-- The keyword registration loop: replace an existing match only when the
keyword score is strictly higher. -/
def stageKeywords (ms : List CompanyMatch)
    (acc : List (String × CompanyMatch)) : List (String × CompanyMatch) :=
  ms.foldl (fun acc mt =>
    match dictGet acc mt.company_name with
    | none => dictSet acc mt.company_name mt
    | some ex => if ex.score < mt.score then dictSet acc mt.company_name mt else acc) acc

/-- The `matches` dict after the pattern-override and hint stages. -/
def Matcher.mapAfterHints (m : Matcher) (combined : String) (md : Metadata) :
    List (String × CompanyMatch) :=
  let nameBl := m.nameBlacklistOf md
  stageHints m (md.company_hints.getD []) nameBl
    (stageAssign (matchOverrides combined (m.patternOverridesOf md)) nameBl [])

/-- The `matches` dict after the exact-substring stage. -/
def Matcher.mapAfterExact (m : Matcher) (combined : String) (md : Metadata) :
    List (String × CompanyMatch) :=
  stageSetdefault (m.matchExact combined) (m.nameBlacklistOf md)
    (m.mapAfterHints combined md)

/-- The `matches` dict after the alias-substring stage. -/
def Matcher.mapAfterAlias (m : Matcher) (combined : String) (md : Metadata) :
    List (String × CompanyMatch) :=
  stageSetdefault (m.matchAliases combined) (m.nameBlacklistOf md)
    (m.mapAfterExact combined md)

/-- The `matches` dict after the keyword stage. -/
def Matcher.mapAfterKeywords (m : Matcher) (combined : String) (md : Metadata) :
    List (String × CompanyMatch) :=
  stageKeywords (m.matchKeywords combined (m.nameBlacklistOf md))
    (m.mapAfterAlias combined md)

/-- The `matches` dict after the fuzzy stage (the final registration state,
before the text-blacklist filter). -/
def Matcher.mapAfterFuzzy (m : Matcher) (combined : String) (md : Metadata) :
    List (String × CompanyMatch) :=
  let prev := m.mapAfterKeywords combined md
  stageSetdefault
    (m.matchFuzzy combined (prev.map (fun kv => kv.1)) (m.nameBlacklistOf md))
    (m.nameBlacklistOf md) prev

/-- `match_companies` after the `companies_override` short-circuit check. -/
def Matcher.matchCompaniesBody (m : Matcher) (text title summary : Option String)
    (md : Metadata) : List String :=
  let textValue := text.getD ""
  if textValue = "" && strFalsy title && strFalsy summary &&
      (md.company_hints.getD []).isEmpty then []
  else
    let combined := combineText textValue title summary
    let finalMap := m.mapAfterFuzzy combined md
    let filtered := finalMap.filter (fun kv =>
      !(isBlacklistedText kv.2.matched_text (m.textBlacklistOf md)))
    sortStrings (filtered.map (fun kv => kv.1))

/-- `CompanyMatcher.match_companies`. -/
def Matcher.matchCompanies (m : Matcher) (text : Option String)
    (title summary : Option String) (metadata : Option Metadata) : List String :=
  let md := metadata.getD Metadata.empty
  let ovResult := match md.companies_override with
    | some ov => m.normalizeNames ov
    | none => []
  if ovResult.isEmpty then m.matchCompaniesBody text title summary md
  else sortStrings ovResult

/-! ## Categorization (`categorization.py`)

The keyword rule tables are Python regular expressions built from literals,
alternation `|`, greedy `.*` and greedy `\s+` only; they are embedded as an
explicit AST below, and `re.findall` with `re.IGNORECASE` is modelled by a
backtracking matcher (leftmost position, alternatives in written order,
greedy quantifiers) over case-folded text. -/

/-- One atom of a pattern branch: a literal, `.*`, or `\s+` (with `wsStar`
the internal remainder of `\s+` after its first character). -/
inductive RAtom where
  | lit : String → RAtom
  | anyStar : RAtom
  | wsPlus : RAtom
  | wsStar : RAtom
deriving DecidableEq

/-- A pattern is an ordered alternation of branches. -/
def RPattern : Type := List (List RAtom)

/-- Lowercase the literals of an atom (`re.IGNORECASE` via case folding). -/
def RAtom.lower : RAtom → RAtom
  | .lit s => .lit (strLower s)
  | a => a

/-- Match a branch at the head of `cs`, returning the remaining suffix of the
preferred (greedy, leftmost) match. Fuel decreases on every call; callers pass
enough for the branch and text at hand. -/
def matchAtoms : Nat → List RAtom → List Char → Option (List Char)
  | 0, _, _ => none
  | _ + 1, [], cs => some cs
  | fuel + 1, .lit s :: rest, cs =>
    if litPre s.data cs then matchAtoms fuel rest (cs.drop s.data.length) else none
  | fuel + 1, .anyStar :: rest, [] => matchAtoms fuel rest []
  | fuel + 1, .anyStar :: rest, c :: cs =>
    if c == '\n' then matchAtoms fuel rest (c :: cs)
    else
      match matchAtoms fuel (.anyStar :: rest) cs with
      | some r => some r
      | none => matchAtoms fuel rest (c :: cs)
  | _ + 1, .wsPlus :: _, [] => none
  | fuel + 1, .wsPlus :: rest, c :: cs =>
    if isPyWs c then matchAtoms fuel (.wsStar :: rest) cs else none
  | fuel + 1, .wsStar :: rest, [] => matchAtoms fuel rest []
  | fuel + 1, .wsStar :: rest, c :: cs =>
    if isPyWs c then
      match matchAtoms fuel (.wsStar :: rest) cs with
      | some r => some r
      | none => matchAtoms fuel rest (c :: cs)
    else matchAtoms fuel rest (c :: cs)

/-- Try the alternation branches in written order at the current position. -/
def tryBranches (branches : List (List RAtom)) (cs : List Char) :
    Option (List Char) :=
  match branches with
  | [] => none
  | b :: rest =>
    match matchAtoms (b.length + cs.length + 1) b cs with
    | some r => some r
    | none => tryBranches rest cs

/-- Scan for non-overlapping matches from the left (`re.findall` count); an
empty match advances one character, as in CPython. -/
def countAux : Nat → List (List RAtom) → List Char → Nat
  | 0, _, _ => 0
  | fuel + 1, branches, cs =>
    match tryBranches branches cs with
    | some r =>
      if r.length == cs.length then
        match cs with
        | [] => 1
        | _ :: cs' => 1 + countAux fuel branches cs'
      else 1 + countAux fuel branches r
    | none =>
      match cs with
      | [] => 0
      | _ :: cs' => countAux fuel branches cs'

/-- `len(re.findall(pattern, text, flags=re.IGNORECASE))`. -/
def findallCount (p : RPattern) (text : String) : Nat :=
  let branches := p.map (fun b => b.map RAtom.lower)
  let cs := (strLower text).data
  countAux (cs.length + 1) branches cs

/-- Category machine names (`CategoryClassifier.CATEGORY_*`). -/
def CATEGORY_FINANCIAL : String := "financial_reports"

/-- `CATEGORY_PRODUCT_LAUNCH`. -/
def CATEGORY_PRODUCT_LAUNCH : String := "product_launches"

/-- `CATEGORY_BIDDING`. -/
def CATEGORY_BIDDING : String := "bidding_tendering"

/-- `CATEGORY_NHSA_POLICY`. -/
def CATEGORY_NHSA_POLICY : String := "nhsa_policy"

/-- `CATEGORY_NHC_POLICY`. -/
def CATEGORY_NHC_POLICY : String := "nhc_policy"

/-- `CATEGORY_INDUSTRY_MEDIA`. -/
def CATEGORY_INDUSTRY_MEDIA : String := "industry_media"

/-- `CATEGORY_UNKNOWN`. -/
def CATEGORY_UNKNOWN : String := "unknown"

/-- `ALL_CATEGORIES`, in declaration order. -/
def ALL_CATEGORIES : List String :=
  [CATEGORY_FINANCIAL, CATEGORY_PRODUCT_LAUNCH, CATEGORY_BIDDING,
   CATEGORY_NHSA_POLICY, CATEGORY_NHC_POLICY, CATEGORY_INDUSTRY_MEDIA]

/-- `TITLE_WEIGHT`. -/
def TITLE_WEIGHT : Nat := 5

/-- `SUMMARY_WEIGHT`. -/
def SUMMARY_WEIGHT : Nat := 3

/-- `CONTENT_WEIGHT`. -/
def CONTENT_WEIGHT : Nat := 1

/-- `CATEGORY_SYNONYMS` (the synonym sets are pairwise disjoint, so the
alias lookup built from them is independent of Python's set iteration
order). -/
def CATEGORY_SYNONYMS : List (String × List String) :=
  [(CATEGORY_FINANCIAL,
    ["financial", "finance", "financial report", "financial reports",
     "financial_report", "financial_reports", "财报", "财务", "财报资讯",
     "财务报告", "业绩"]),
   (CATEGORY_PRODUCT_LAUNCH,
    ["product", "product launch", "product_launch", "launch", "approval",
     "产品上市", "新品", "获批"]),
   (CATEGORY_BIDDING,
    ["bidding", "tender", "招标", "招标采购", "集中采购", "采购"]),
   (CATEGORY_NHSA_POLICY,
    ["nhsa", "medical insurance", "医保", "医保政策", "医保局",
     "medical security"]),
   (CATEGORY_NHC_POLICY,
    ["nhc", "卫健委", "卫生健康委", "health commission"]),
   (CATEGORY_INDUSTRY_MEDIA,
    ["industry", "industry media", "媒体", "行业媒体", "市场分析",
     "analysis"])]

/-- Lookup of `_build_alias_lookup`: a lowered name resolves to the canonical
category whose name or synonym set contains it. -/
def findSynonym : List (String × List String) → String → Option String
  | [], _ => none
  | (canonical, syns) :: rest, n =>
    if strLower canonical = n || syns.any (fun s => strLower s = n) then some canonical
    else findSynonym rest n

/-- `CategoryClassifier.normalize_category_name`. -/
def normalizeCategoryName (category : Option String) : Option String :=
  match category with
  | none => none
  | some c =>
    if c = "" then none
    else findSynonym CATEGORY_SYNONYMS (strLower (strStrip c))

/-- `source_rules`, in insertion order. -/
def sourceRules : List (String × String) :=
  [("cninfo", CATEGORY_FINANCIAL), ("eastmoney", CATEGORY_FINANCIAL),
   ("东方财富", CATEGORY_FINANCIAL), ("巨潮资讯", CATEGORY_FINANCIAL),
   ("investor", CATEGORY_FINANCIAL), ("financial", CATEGORY_FINANCIAL),
   ("nhsa", CATEGORY_NHSA_POLICY), ("医保局", CATEGORY_NHSA_POLICY),
   ("医疗保障局", CATEGORY_NHSA_POLICY),
   ("nhc", CATEGORY_NHC_POLICY), ("卫健委", CATEGORY_NHC_POLICY),
   ("卫生健康委", CATEGORY_NHC_POLICY),
   ("招标", CATEGORY_BIDDING), ("采购", CATEGORY_BIDDING),
   ("集采", CATEGORY_BIDDING), ("bidding", CATEGORY_BIDDING),
   ("tender", CATEGORY_BIDDING)]

/-- `keyword_rules`: each Python regex of `_init_rules` as a pattern AST. -/
def keywordRules : List (String × List RPattern) :=
  [(CATEGORY_FINANCIAL,
    [[[.lit "财报"], [.lit "年报"], [.lit "季报"], [.lit "业绩"], [.lit "营收"],
      [.lit "利润"], [.lit "净利"]],
     [[.lit "财务报告"], [.lit "经营报告"], [.lit "股东大会"], [.lit "投资者"]],
     [[.lit "financial", .wsPlus, .lit "report"], [.lit "earnings"],
      [.lit "revenue"], [.lit "profit"]],
     [[.lit "公告", .anyStar, .lit "业绩"], [.lit "披露", .anyStar, .lit "财务"]]]),
   (CATEGORY_PRODUCT_LAUNCH,
    [[[.lit "上市"], [.lit "新品"], [.lit "推出"], [.lit "问世"]],
     [[.lit "获批"], [.lit "批准"], [.lit "注册证"], [.lit "NMPA"], [.lit "FDA"]],
     [[.lit "产品", .anyStar, .lit "上市"], [.lit "新产品"], [.lit "产品发布"]],
     [[.lit "launch"], [.lit "approval"], [.lit "clearance"]]]),
   (CATEGORY_BIDDING,
    [[[.lit "招标"], [.lit "中标"], [.lit "投标"], [.lit "采购"]],
     [[.lit "集采"], [.lit "集中采购"], [.lit "带量采购"]],
     [[.lit "中标", .anyStar, .lit "公告"], [.lit "招标", .anyStar, .lit "公告"],
      [.lit "成交", .anyStar, .lit "公告"]],
     [[.lit "bidding"], [.lit "tender"], [.lit "procurement"]]]),
   (CATEGORY_NHSA_POLICY,
    [[[.lit "医保局"], [.lit "医疗保障局"]],
     [[.lit "医保", .anyStar, .lit "政策"], [.lit "医保", .anyStar, .lit "目录"],
      [.lit "医保", .anyStar, .lit "支付"]],
     [[.lit "医保", .anyStar, .lit "谈判"], [.lit "医保", .anyStar, .lit "准入"],
      [.lit "医保", .anyStar, .lit "价格"]],
     [[.lit "DRG"], [.lit "DIP"], [.lit "医保", .anyStar, .lit "基金"]]]),
   (CATEGORY_NHC_POLICY,
    [[[.lit "卫健委"], [.lit "卫生健康委"]],
     [[.lit "卫生", .anyStar, .lit "政策"], [.lit "医疗", .anyStar, .lit "管理"],
      [.lit "医院", .anyStar, .lit "管理"]],
     [[.lit "临床", .anyStar, .lit "指南"], [.lit "诊疗", .anyStar, .lit "规范"],
      [.lit "技术", .anyStar, .lit "标准"]],
     [[.lit "疫情", .anyStar, .lit "防控"], [.lit "公共卫生"]]]),
   (CATEGORY_INDUSTRY_MEDIA,
    [[[.lit "行业", .anyStar, .lit "分析"], [.lit "市场", .anyStar, .lit "分析"],
      [.lit "趋势", .anyStar, .lit "分析"]],
     [[.lit "专家", .anyStar, .lit "解读"], [.lit "深度", .anyStar, .lit "解析"],
      [.lit "观察"]],
     [[.lit "行业", .anyStar, .lit "动态"], [.lit "市场", .anyStar, .lit "动态"]]])]

/-- The `CategoryClassifier` rule state after `_init_rules`. -/
structure Classifier where
  srcRules : List (String × String)
  kwRules : List (String × List RPattern)

/-- The classifier built with no custom rules. -/
def defaultClassifier : Classifier := ⟨sourceRules, keywordRules⟩

/-- First source rule whose (lowered) pattern is a substring of `s`. -/
def findRule : List (String × String) → String → Option String
  | [], _ => none
  | (p, c) :: rest, s => if strContains s (strLower p) then some c else findRule rest s

/-- `_categorize_by_source`: rules against the source first, then (only if
none matched) against the URL. -/
def categorizeBySource (rules : List (String × String)) (source : String)
    (url : Option String) : Option String :=
  match findRule rules (strLower source) with
  | some c => some c
  | none =>
    if strFalsy url then none
    else findRule rules (strLower (url.getD ""))

/-- Weighted score of one category: every pattern's match count against
title (weight 5), summary (weight 3) and body (weight 1), summed. -/
def patternsScore (ps : List RPattern) (title summary content : Option String) :
    Nat :=
  ps.foldl (fun acc p =>
    acc +
    (if strFalsy title then 0 else findallCount p (title.getD "") * TITLE_WEIGHT) +
    (if strFalsy summary then 0 else findallCount p (summary.getD "") * SUMMARY_WEIGHT) +
    (if strFalsy content then 0 else findallCount p (content.getD "") * CONTENT_WEIGHT)) 0

/-- Total weighted keyword score of a category under a rule table. -/
def categoryScore (rules : List (String × List RPattern)) (c : String)
    (title summary content : Option String) : Nat :=
  match dictGet rules c with
  | some ps => patternsScore ps title summary content
  | none => 0

/-- Python `max(items, key=lambda item: item[1])`: the first element
attaining the maximal value. -/
def pyMax (l : List (String × Nat)) : Option (String × Nat) :=
  match l with
  | [] => none
  | x :: rest => some (rest.foldl (fun best item => if best.2 < item.2 then item else best) x)

/-- The `scores` dict of `_categorize_by_keywords_weighted`, in its insertion
order (`ALL_CATEGORIES` order). -/
def keywordScores (rules : List (String × List RPattern))
    (title summary content : Option String) : List (String × Nat) :=
  ALL_CATEGORIES.map (fun c => (c, categoryScore rules c title summary content))

/-- `_categorize_by_keywords_weighted`. -/
def categorizeByKeywordsWeighted (rules : List (String × List RPattern))
    (title summary content : Option String) : Option String :=
  if strFalsy title && strFalsy summary && strFalsy content then none
  else
    match pyMax (keywordScores rules title summary content) with
    | some best => if 0 < best.2 then some best.1 else none
    | none => none

/-- The metadata override check of `categorize`: `category_override` first,
then `category`; a value that does not normalize falls through. -/
def checkOverride (md : Metadata) : Option String :=
  match normalizeCategoryName md.category_override with
  | some c => some c
  | none => normalizeCategoryName md.category

/-- `CategoryClassifier.categorize`. -/
def Classifier.categorize (cl : Classifier) (source : String)
    (title summary content url : Option String) (metadata : Option Metadata) :
    String :=
  let md := metadata.getD Metadata.empty
  match checkOverride md with
  | some c => c
  | none =>
    match categorizeBySource cl.srcRules source url with
    | some c => c
    | none =>
      match categorizeByKeywordsWeighted cl.kwRules title summary content with
      | some c => c
      | none => CATEGORY_INDUSTRY_MEDIA

/-! ## Ingestion store (`database.py`)

The SQLite store is modelled as explicit state: the `records` table as a
list of rows in rowid order, the `ingestion_runs` ledger likewise, and the
autoincrement counters. `sha256` is abstracted as a function parameter
`hashText`; theorems that need collision-freedom state it as an explicit
injectivity hypothesis. Timestamps are the already-normalized strings the
code produces; `_utc_now()` becomes the explicit `now` argument. Stored
JSON payloads (`companies`, `metadata`) are modelled in deserialized form,
with `none` for SQL `NULL` (JSON serialization with sorted keys is
injective on them, so `COALESCE` on the serialized column is `Option.orElse`
on the model). -/

/-- One row of the `records` table. -/
structure Record where
  id : Nat
  source : String
  source_type : Option String
  category : Option String
  companies : List String
  title : Option String
  summary : Option String
  content_html : Option String
  publish_date : Option String
  url : String
  url_hash : String
  region : Option String
  scraped_at : Option String
  metadata : Option Metadata
  content_hash : String
  created_at : String
  updated_at : String
deriving DecidableEq

/-- One row of the `ingestion_runs` ledger. -/
structure IngestionRun where
  id : Nat
  source : Option String
  started_at : String
  completed_at : Option String
  status : String
  total_records : Nat
  new_records : Nat
  updated_records : Nat
  duplicate_records : Nat
  metadata : Option Metadata
deriving DecidableEq

/-- The database state. -/
structure DB where
  records : List Record
  runs : List IngestionRun
  nextRecordId : Nat
  nextRunId : Nat
deriving DecidableEq

/-- `RecordOperationResult` dataclass. -/
structure RecordOperationResult where
  status : String
  record_id : Nat
  duplicate_of : Option Nat
  message : Option String
  ingestion_run_id : Option Nat
deriving DecidableEq

/-- A normalized input item handed to `insert_record` (keyword arguments). -/
structure Item where
  source : String
  url : String
  source_type : Option String := none
  category : Option String := none
  companies : Option (List String) := none
  title : Option String := none
  summary : Option String := none
  content_html : Option String := none
  publish_date : Option String := none
  region : Option String := none
  scraped_at : Option String := none
  metadata : Option Metadata := none
  ingestion_run_id : Option Nat := none
deriving DecidableEq

/-- `_normalise_url`. -/
def normaliseUrl (url : String) : String := strLower (strStrip url)

/-- `_normalize_timestamp` on (already string-valued) timestamps. -/
def normalizeTimestamp (value : Option String) (defaultToNow : Bool)
    (now : String) : Option String :=
  match value with
  | none => if defaultToNow then some now else none
  | some v =>
    let text := strStrip v
    if text = "" then (if defaultToNow then some now else none)
    else some text

/-- The content-fingerprint input: trimmed title, summary and body joined
with U+241F. -/
def contentKey (title summary content_html : Option String) : String :=
  joinWith "␟"
    [strStrip (title.getD ""), strStrip (summary.getD ""),
     strStrip (content_html.getD "")]

/-- `_enrich_record_fields`: canonical companies and normalized category. -/
def enrichRecordFields (m : Matcher) (cl : Classifier) (item : Item) :
    List String × String :=
  let mdDict := item.metadata.getD Metadata.empty
  let canonicalCompanies :=
    match item.companies with
    | some cs =>
      if cs.isEmpty then
        m.matchCompanies item.content_html item.title item.summary (some mdDict)
      else m.normalizeNames cs
    | none =>
      m.matchCompanies item.content_html item.title item.summary (some mdDict)
  let normalizedCategory :=
    match normalizeCategoryName item.category with
    | some c => c
    | none =>
      cl.categorize item.source item.title item.summary item.content_html
        (some item.url) (some mdDict)
  (canonicalCompanies, normalizedCategory)

/-- `_increment_ingestion_run`: the SQL `UPDATE ... WHERE id = ?`. -/
def incrementIngestionRun (runs : List IngestionRun) (rid : Nat)
    (total ins upd dup : Nat) : List IngestionRun :=
  runs.map (fun r =>
    if r.id = rid then
      { r with
        total_records := r.total_records + total,
        new_records := r.new_records + ins,
        updated_records := r.updated_records + upd,
        duplicate_records := r.duplicate_records + dup }
    else r)

/-- The `increments` table of `insert_record`, keyed by outcome status. -/
def incrementsFor (status : String) : Nat × Nat × Nat × Nat :=
  if status = "inserted" then (1, 1, 0, 0)
  else if status = "updated" then (1, 0, 1, 0)
  else (1, 0, 0, 1)

/-- `_result_message`. -/
def resultMessage (status : String) (dup : Option Nat) : Option String :=
  if status = "inserted" then some "record inserted"
  else if status = "updated" then some "existing record updated"
  else
    match dup with
    | some d =>
      if status = "duplicate" then some ("duplicate of record " ++ toString d)
      else none
    | none => none

/-- The duplicate-path `UPDATE`: refresh `scraped_at`, coalesce `metadata`,
touch `updated_at`; every other column is untouched. -/
def dupRefresh (records : List Record) (rid : Nat) (scraped : Option String)
    (mdJson : Option Metadata) (now : String) : List Record :=
  records.map (fun r =>
    if r.id = rid then
      { r with
        scraped_at := scraped,
        metadata := match mdJson with | some mj => some mj | none => r.metadata,
        updated_at := now }
    else r)

/-- The changed-content `UPDATE`: overwrite all mutable columns in place. -/
def updateAll (records : List Record) (rid : Nat) (item : Item)
    (companies : List String) (category : String)
    (publishDateStr scrapedAtStr : Option String)
    (contentHash now : String) : List Record :=
  records.map (fun r =>
    if r.id = rid then
      { r with
        source := item.source,
        source_type := item.source_type,
        category := some category,
        companies := companies,
        title := item.title,
        summary := item.summary,
        content_html := item.content_html,
        publish_date := publishDateStr,
        url := item.url,
        region := item.region,
        scraped_at := scrapedAtStr,
        metadata := item.metadata,
        content_hash := contentHash,
        updated_at := now }
    else r)

/-- The fresh row built by the insert branch of `insert_record`. -/
def newRecordOf (db : DB) (item : Item) (companies : List String)
    (category : String) (publishDateStr scrapedAtStr : Option String)
    (urlHash contentHash now : String) : Record :=
  { id := db.nextRecordId,
    source := item.source,
    source_type := item.source_type,
    category := some category,
    companies := companies,
    title := item.title,
    summary := item.summary,
    content_html := item.content_html,
    publish_date := publishDateStr,
    url := item.url,
    url_hash := urlHash,
    region := item.region,
    scraped_at := scrapedAtStr,
    metadata := item.metadata,
    content_hash := contentHash,
    created_at := now,
    updated_at := now }

/-- The transactional core of `insert_record` (steps 5 and 6 of the dedup
protocol): returns the new table, the status, the record id, the duplicate
target and the next autoincrement value. -/
def insertStep (db : DB) (item : Item) (companies : List String)
    (category : String) (publishDateStr scrapedAtStr : Option String)
    (urlHash contentHash now : String) :
    List Record × String × Nat × Option Nat × Nat :=
  match db.records.find? (fun r => r.url_hash = urlHash) with
  | some existing =>
    if existing.content_hash ≠ contentHash then
      (updateAll db.records existing.id item companies category
         publishDateStr scrapedAtStr contentHash now,
       "updated", existing.id, none, db.nextRecordId)
    else
      (dupRefresh db.records existing.id scrapedAtStr item.metadata now,
       "duplicate", existing.id, some existing.id, db.nextRecordId)
  | none =>
    match db.records.find? (fun r => r.content_hash = contentHash) with
    | some cand =>
      (dupRefresh db.records cand.id scrapedAtStr item.metadata now,
       "duplicate", cand.id, some cand.id, db.nextRecordId)
    | none =>
      (db.records ++
         [newRecordOf db item companies category publishDateStr scrapedAtStr
            urlHash contentHash now],
       "inserted", db.nextRecordId, none, db.nextRecordId + 1)

/-- The run-ledger update of `insert_record` step 8. -/
def runsAfter (runs : List IngestionRun) (runId : Option Nat) (status : String) :
    List IngestionRun :=
  match runId with
  | some rid =>
    let inc := incrementsFor status
    incrementIngestionRun runs rid inc.1 inc.2.1 inc.2.2.1 inc.2.2.2
  | none => runs

/-- The transactional core applied to the enriched fields and fingerprints
computed by `insert_record` for `item` (everything between validation and the
assembly of the returned state and result). -/
def insertArgs (hashText : String → String) (m : Matcher) (cl : Classifier)
    (db : DB) (item : Item) (now : String) :
    List Record × String × Nat × Option Nat × Nat :=
  insertStep db item (enrichRecordFields m cl item).1 (enrichRecordFields m cl item).2
    (normalizeTimestamp item.publish_date false now)
    (normalizeTimestamp item.scraped_at true now)
    (hashText (normaliseUrl item.url))
    (hashText (contentKey item.title item.summary item.content_html)) now

/-- `IVDDatabase.insert_record`. Validation failures leave the state
untouched and surface as `Except.error`; `now` stands for `_utc_now()` of
the call. -/
def insertRecord (hashText : String → String) (m : Matcher) (cl : Classifier)
    (db : DB) (item : Item) (now : String) :
    DB × Except String RecordOperationResult :=
  if item.url = "" then (db, Except.error "url is required")
  else if item.source = "" then (db, Except.error "source is required")
  else
    let step := insertArgs hashText m cl db item now
    let status := step.2.1
    (⟨step.1, runsAfter db.runs item.ingestion_run_id status,
      step.2.2.2.2, db.nextRunId⟩,
     Except.ok
       ⟨status, step.2.2.1, step.2.2.2.1,
        resultMessage status step.2.2.2.1, item.ingestion_run_id⟩)

/-- The full-text index: the triggers of the schema mirror every insert,
update and delete of `records` inside the same transaction, so the index is
exactly this projection of the table. -/
def recordsFts (db : DB) : List (Nat × Option String × Option String × Option String) :=
  db.records.map (fun r => (r.id, r.title, r.summary, r.content_html))

/-- Iterated ingestion of one item: `insertIter … n` is the state after `n`
calls of `insert_record` with the identical item. -/
def insertIter (hashText : String → String) (m : Matcher) (cl : Classifier)
    (item : Item) (now : String) (db : DB) : Nat → DB
  | 0 => db
  | n + 1 => (insertRecord hashText m cl (insertIter hashText m cl item now db n) item now).1

/-- Every registered match of a `matches` dict scores at least 95 (holds for
the override/hint/exact/alias stages, whose scores are 100, 100, 100, 95). -/
def scoreInv (mp : List (String × CompanyMatch)) : Prop :=
  ∀ c mt, dictGet mp c = some mt → 95 ≤ mt.score

/-- Modelled from the spec: §4.3 step 5 says a duplicate hit should "merge
in any new metadata" into the stored metadata. Read as a dictionary merge,
the stored entries survive unless the incoming item overrides them: explicit
fields keep the stored value when the incoming one is absent, and the
free-form entries are `{**stored, **incoming}`. (The code instead replaces
the whole stored payload via `COALESCE` whenever the incoming one is
non-NULL.) -/
def specMergeMetadata (stored incoming : Metadata) : Metadata :=
  { companies_override :=
      incoming.companies_override.orElse (fun _ => stored.companies_override),
    company_hints := incoming.company_hints.orElse (fun _ => stored.company_hints),
    company_overrides :=
      incoming.company_overrides.orElse (fun _ => stored.company_overrides),
    company_blacklist_terms :=
      incoming.company_blacklist_terms.orElse (fun _ => stored.company_blacklist_terms),
    company_blacklist :=
      incoming.company_blacklist.orElse (fun _ => stored.company_blacklist),
    category_override :=
      incoming.category_override.orElse (fun _ => stored.category_override),
    category := incoming.category.orElse (fun _ => stored.category),
    extra := dictMerge stored.extra incoming.extra }

/-- A matcher over an empty company directory (used to instantiate theorems
on concrete inputs). -/
def emptyMatcher : Matcher :=
  ⟨[], [], [], [], [], [], fun _ _ => []⟩

/-- A matcher over a one-company directory (used to instantiate theorems on
concrete inputs). -/
def acmeMatcher : Matcher :=
  ⟨[⟨"Acme", none, [], []⟩], [("acme", "Acme")], [], [], [], [], fun _ _ => []⟩

/-- The empty database state. -/
def emptyDB : DB := ⟨[], [], 1, 1⟩

/-- A keyword-only matcher: two keywords for `Zeta`, one for `Solo`. -/
def kwMatcher : Matcher :=
  ⟨[], [], [], [("alpha", "Zeta"), ("beta", "Zeta"), ("gamma", "Solo")],
   [], [], fun _ _ => []⟩

/-- Metadata carrying one company hint. -/
def hintMeta : Metadata := { company_hints := some ["Acme"] }

/-- Stored free-form metadata of the first ingest (key `a`). -/
def metaA : Metadata := { extra := [("a", "1")] }

/-- Incoming free-form metadata of the re-ingest (key `b`). -/
def metaB : Metadata := { extra := [("b", "2")] }

/-- A valid item carrying metadata `metaA`. -/
def itemMetaA : Item :=
  { source := "s", url := "u", title := some "t",
    category := some "financial", companies := some ["X"],
    metadata := some metaA }

/-- The identical item re-ingested with metadata `metaB`. -/
def itemMetaB : Item :=
  { source := "s", url := "u", title := some "t",
    category := some "financial", companies := some ["X"],
    metadata := some metaB }

/-- State after ingesting `itemMetaA` into the empty store. -/
def dbAfterA : DB :=
  (insertRecord id emptyMatcher defaultClassifier emptyDB itemMetaA "t1").1

/-- State after re-ingesting the same content as `itemMetaB`. -/
def dbAfterB : DB :=
  (insertRecord id emptyMatcher defaultClassifier dbAfterA itemMetaB "t2").1

/-- A valid sample item. -/
def sampleItem1 : Item :=
  { source := "s", url := "u1", title := some "Alert",
    summary := some "Important alert", content_html := some "b",
    category := some "financial", companies := some ["X"] }

/-- The same content under a different URL. -/
def sampleItem2 : Item :=
  { source := "s", url := "u2", title := some "Alert",
    summary := some "Important alert", content_html := some "b",
    category := some "financial", companies := some ["X"] }

/-- An item failing validation (empty URL). -/
def invalidItem : Item := { source := "s", url := "" }

/-- A ledger row in progress. -/
def sampleRun : IngestionRun := ⟨7, none, "t0", none, "running", 3, 1, 1, 1, none⟩

/-- `sampleItem1` associated with ingestion run 7. -/
def runItem : Item :=
  { source := "s", url := "u1", title := some "Alert",
    summary := some "Important alert", content_html := some "b",
    category := some "financial", companies := some ["X"],
    ingestion_run_id := some 7 }

/-- A store with only the ledger row `sampleRun`. -/
def runDB : DB := ⟨[], [sampleRun], 1, 8⟩

/-- State after ingesting `sampleItem1` into the empty store. -/
def dbAfter1 : DB :=
  (insertRecord id emptyMatcher defaultClassifier emptyDB sampleItem1 "t1").1

/-! ## Helper lemmas: dictionaries -/

theorem dictGet_nil {α : Type} (k : String) : dictGet ([] : List (String × α)) k = none := rfl

theorem dictGet_cons {α : Type} (kv : String × α) (rest : List (String × α)) (k : String) :
    dictGet (kv :: rest) k = if kv.1 = k then some kv.2 else dictGet rest k := by
  by_cases h : kv.1 = k
  · simp [dictGet, List.find?_cons_of_pos, h]
  · simp [dictGet, List.find?_cons_of_neg, h]

theorem dictGet_dictSet_self {α : Type} (m : List (String × α)) (k : String) (v : α) :
    dictGet (dictSet m k v) k = some v := by
  induction m with
  | nil => simp [dictSet, dictGet]
  | cons kv rest ih =>
    obtain ⟨k', v'⟩ := kv
    by_cases h : k' = k
    · simp [dictSet, h, dictGet_cons]
    · simp [dictSet, h, dictGet_cons, ih]

theorem dictGet_dictSet_ne {α : Type} (m : List (String × α)) (k c : String) (v : α)
    (h : c ≠ k) : dictGet (dictSet m k v) c = dictGet m c := by
  have hkc : ¬k = c := fun he => h he.symm
  induction m with
  | nil => simp [dictSet, dictGet_cons, dictGet_nil, hkc]
  | cons kv rest ih =>
    obtain ⟨k', v'⟩ := kv
    by_cases hk : k' = k
    · subst hk
      simp [dictSet, dictGet_cons, hkc]
    · simp [dictSet, hk, dictGet_cons, ih]

theorem dictGet_dictSet_cases {α : Type} (m : List (String × α)) (k c : String)
    (v w : α) (h : dictGet (dictSet m k v) c = some w) :
    (c = k ∧ w = v) ∨ (c ≠ k ∧ dictGet m c = some w) := by
  by_cases hc : c = k
  · subst hc
    rw [dictGet_dictSet_self] at h
    exact Or.inl ⟨rfl, (Option.some_inj.mp h).symm⟩
  · rw [dictGet_dictSet_ne _ _ _ _ hc] at h
    exact Or.inr ⟨hc, h⟩

theorem dictGet_dictSetdefault_of_some {α : Type} (m : List (String × α))
    (k c : String) (v w : α) (h : dictGet m c = some w) :
    dictGet (dictSetdefault m k v) c = some w := by
  unfold dictSetdefault
  cases hk : dictGet m k with
  | some _ => exact h
  | none =>
    by_cases hc : c = k
    · subst hc
      rw [h] at hk
      exact absurd hk (by simp)
    · rw [dictGet_dictSet_ne _ _ _ _ hc]
      exact h

theorem dictGet_dictSetdefault_cases {α : Type} (m : List (String × α))
    (k c : String) (v w : α) (h : dictGet (dictSetdefault m k v) c = some w) :
    dictGet m c = some w ∨ w = v := by
  unfold dictSetdefault at h
  cases hk : dictGet m k with
  | some u => rw [hk] at h; exact Or.inl h
  | none =>
    rw [hk] at h
    rcases dictGet_dictSet_cases m k c v w h with ⟨_, hw⟩ | ⟨_, hw⟩
    · exact Or.inr hw
    · exact Or.inl hw

/-! ## Helper lemmas: matcher stage registration -/

theorem stageSetdefault_preserves (ms : List CompanyMatch) (bl : List String)
    (acc : List (String × CompanyMatch)) (c : String) (mt : CompanyMatch)
    (h : dictGet acc c = some mt) :
    dictGet (stageSetdefault ms bl acc) c = some mt := by
  induction ms generalizing acc with
  | nil => exact h
  | cons a t ih =>
    have hstep : dictGet
        (if bl.contains a.company_name then acc
         else dictSetdefault acc a.company_name a) c = some mt := by
      by_cases hb : bl.contains a.company_name
      · rw [if_pos hb]; exact h
      · rw [if_neg hb]
        exact dictGet_dictSetdefault_of_some acc a.company_name c a mt h
    exact ih _ hstep

theorem stageKeywords_preserves (ms : List CompanyMatch)
    (acc : List (String × CompanyMatch)) (c : String) (mt : CompanyMatch)
    (h : dictGet acc c = some mt) (hsc : 95 ≤ mt.score)
    (hms : ∀ x ∈ ms, x.score ≤ 90) :
    dictGet (stageKeywords ms acc) c = some mt := by
  induction ms generalizing acc with
  | nil => exact h
  | cons a t ih =>
    have ha : a.score ≤ 90 := hms a (by simp)
    have hstep : dictGet
        (match dictGet acc a.company_name with
         | none => dictSet acc a.company_name a
         | some ex => if ex.score < a.score then dictSet acc a.company_name a else acc)
        c = some mt := by
      cases hg : dictGet acc a.company_name with
      | none =>
        dsimp only
        by_cases hc : c = a.company_name
        · subst hc; rw [h] at hg; exact absurd hg (by simp)
        · rw [dictGet_dictSet_ne acc a.company_name c a hc]; exact h
      | some ex =>
        dsimp only
        by_cases hlt : ex.score < a.score
        · rw [if_pos hlt]
          by_cases hc : c = a.company_name
          · subst hc
            rw [h] at hg
            have hme : mt = ex := by injection hg
            rw [hme] at hsc
            exact absurd hlt (by omega)
          · rw [dictGet_dictSet_ne acc a.company_name c a hc]; exact h
        · rw [if_neg hlt]; exact h
    exact ih _ hstep (fun x hx => hms x (by simp [hx]))

theorem scoreInv_dictSet (acc : List (String × CompanyMatch)) (k : String)
    (v : CompanyMatch) (h : scoreInv acc) (hv : 95 ≤ v.score) :
    scoreInv (dictSet acc k v) := by
  intro c mt hget
  rcases dictGet_dictSet_cases acc k c v mt hget with ⟨_, hw⟩ | ⟨_, hw⟩
  · rw [hw]; exact hv
  · exact h c mt hw

theorem scoreInv_stageAssign (ms : List CompanyMatch) (bl : List String)
    (acc : List (String × CompanyMatch)) (h : scoreInv acc)
    (hms : ∀ x ∈ ms, 95 ≤ x.score) : scoreInv (stageAssign ms bl acc) := by
  induction ms generalizing acc with
  | nil => exact h
  | cons a t ih =>
    have hstep : scoreInv
        (if bl.contains a.company_name then acc else dictSet acc a.company_name a) := by
      by_cases hb : bl.contains a.company_name
      · rw [if_pos hb]; exact h
      · rw [if_neg hb]; exact scoreInv_dictSet acc a.company_name a h (hms a (by simp))
    exact ih _ hstep (fun x hx => hms x (by simp [hx]))

theorem scoreInv_stageHints (m : Matcher) (hints : List String) (bl : List String)
    (acc : List (String × CompanyMatch)) (h : scoreInv acc) :
    scoreInv (stageHints m hints bl acc) := by
  induction hints generalizing acc with
  | nil => exact h
  | cons a t ih =>
    have hstep : scoreInv
        (if (pyOr (m.canonicalizeName a) a) ≠ "" &&
            !(bl.contains (pyOr (m.canonicalizeName a) a)) then
          dictSet acc (pyOr (m.canonicalizeName a) a)
            ⟨pyOr (m.canonicalizeName a) a, a, 100, "hint"⟩
        else acc) := by
      by_cases hb : (pyOr (m.canonicalizeName a) a) ≠ "" &&
          !(bl.contains (pyOr (m.canonicalizeName a) a))
      · rw [if_pos hb]
        exact scoreInv_dictSet acc _ _ h (by norm_num)
      · rw [if_neg hb]; exact h
    exact ih _ hstep

theorem scoreInv_stageSetdefault (ms : List CompanyMatch) (bl : List String)
    (acc : List (String × CompanyMatch)) (h : scoreInv acc)
    (hms : ∀ x ∈ ms, 95 ≤ x.score) : scoreInv (stageSetdefault ms bl acc) := by
  induction ms generalizing acc with
  | nil => exact h
  | cons a t ih =>
    have hstep : scoreInv
        (if bl.contains a.company_name then acc
         else dictSetdefault acc a.company_name a) := by
      by_cases hb : bl.contains a.company_name
      · rw [if_pos hb]; exact h
      · rw [if_neg hb]
        intro c mt hget
        rcases dictGet_dictSetdefault_cases acc a.company_name c a mt hget with hw | hw
        · exact h c mt hw
        · rw [hw]; exact hms a (by simp)
    exact ih _ hstep (fun x hx => hms x (by simp [hx]))

theorem matchOverrides_score (text : String) (ov : List (String × String)) :
    ∀ x ∈ matchOverrides text ov, x.score = 100 := by
  intro x hx
  rcases List.mem_filterMap.mp hx with ⟨pc, _, hpc⟩
  by_cases hc : strContains (strLower text) pc.1
  · simp only [hc, if_pos] at hpc
    cases hpc; rfl
  · simp [hc] at hpc

theorem matchExact_score (m : Matcher) (text : String) :
    ∀ x ∈ m.matchExact text, x.score = 100 := by
  intro x hx
  rcases List.mem_filterMap.mp hx with ⟨kv, _, hkv⟩
  by_cases hc : strContains (strLower text) kv.1
  · simp only [hc, if_pos] at hkv
    cases hkv; rfl
  · simp [hc] at hkv

theorem matchAliases_score (m : Matcher) (text : String) :
    ∀ x ∈ m.matchAliases text, x.score = 95 := by
  intro x hx
  rcases List.mem_filterMap.mp hx with ⟨kv, _, hkv⟩
  by_cases hc : strContains (strLower text) kv.1
  · simp only [hc, if_pos] at hkv
    cases hkv; rfl
  · simp [hc] at hkv

theorem matchKeywords_score_le (m : Matcher) (text : String) (bl : List String) :
    ∀ x ∈ m.matchKeywords text bl, x.score ≤ 90 := by
  intro x hx
  rcases List.mem_filterMap.mp hx with ⟨cnk, _, hcnk⟩
  by_cases hc : cnk.2.1 ≥ 2
  · simp only [hc, if_pos] at hcnk
    cases hcnk
    exact min_le_right _ _
  · simp [hc] at hcnk

theorem scoreInv_mapAfterAlias (m : Matcher) (combined : String) (md : Metadata) :
    scoreInv (m.mapAfterAlias combined md) := by
  unfold Matcher.mapAfterAlias Matcher.mapAfterExact Matcher.mapAfterHints
  apply scoreInv_stageSetdefault _ _ _ _ (fun x hx => by
    rw [matchAliases_score m combined x hx])

  apply scoreInv_stageSetdefault _ _ _ _ (fun x hx => by
    rw [matchExact_score m combined x hx]; norm_num)
  apply scoreInv_stageHints
  apply scoreInv_stageAssign _ _ _ _ (fun x hx => by
    rw [matchOverrides_score combined _ x hx]; norm_num)
  intro c mt hget
  simp [dictGet_nil] at hget

/-! ## Claim theorems -/

/-- C6: within one `match_companies` call, once a company has been registered
by the pattern-override/hint stage, the exact stage or the alias stage, no
later stage (alias, keyword, fuzzy) replaces its registered match — the final
registration state agrees with the earlier one; in particular the keyword
stage (scores capped at 90) can never displace override/hint (100), exact
(100) or alias (95) matches. -/
theorem matcher_stage_precedence (m : Matcher) (combined : String) (md : Metadata) :
    (∀ c mt, dictGet (m.mapAfterHints combined md) c = some mt →
       dictGet (m.mapAfterFuzzy combined md) c = some mt) ∧
    (∀ c mt, dictGet (m.mapAfterExact combined md) c = some mt →
       dictGet (m.mapAfterFuzzy combined md) c = some mt) ∧
    (∀ c mt, dictGet (m.mapAfterAlias combined md) c = some mt →
       dictGet (m.mapAfterFuzzy combined md) c = some mt) := by
  have halias : ∀ c mt, dictGet (m.mapAfterAlias combined md) c = some mt →
      dictGet (m.mapAfterFuzzy combined md) c = some mt := by
    intro c mt h
    have hsc : 95 ≤ mt.score := scoreInv_mapAfterAlias m combined md c mt h
    have hkw : dictGet (m.mapAfterKeywords combined md) c = some mt :=
      stageKeywords_preserves _ _ c mt h hsc
        (matchKeywords_score_le m combined (m.nameBlacklistOf md))
    exact stageSetdefault_preserves _ _ _ c mt hkw
  have hexact : ∀ c mt, dictGet (m.mapAfterExact combined md) c = some mt →
      dictGet (m.mapAfterFuzzy combined md) c = some mt := by
    intro c mt h
    exact halias c mt (stageSetdefault_preserves _ _ _ c mt h)
  have hhints : ∀ c mt, dictGet (m.mapAfterHints combined md) c = some mt →
      dictGet (m.mapAfterFuzzy combined md) c = some mt := by
    intro c mt h
    exact hexact c mt (stageSetdefault_preserves _ _ _ c mt h)
  exact ⟨hhints, hexact, halias⟩

/-- Witness for C6: a hint registered in the hint stage survives to the final
registration state unchanged. -/
theorem matcher_stage_precedence_witness :
    dictGet (acmeMatcher.mapAfterHints "" hintMeta) "Acme" =
      some ⟨"Acme", "Acme", 100, "hint"⟩ ∧
    dictGet (acmeMatcher.mapAfterFuzzy "" hintMeta) "Acme" =
      some ⟨"Acme", "Acme", 100, "hint"⟩ :=
  ⟨by decide,
   (matcher_stage_precedence acmeMatcher "" hintMeta).1 "Acme" _ (by decide)⟩

/-- C7: an item with an empty `url` or `source` is rejected before any
write: the records table, the full-text index and the run ledger are exactly
as before, and the call surfaces a validation error. -/
theorem insert_record_validation_rejects (hashText : String → String)
    (m : Matcher) (cl : Classifier) (db : DB) (item : Item) (now : String)
    (h : item.url = "" ∨ item.source = "") :
    (insertRecord hashText m cl db item now).1.records = db.records ∧
    recordsFts (insertRecord hashText m cl db item now).1 = recordsFts db ∧
    (insertRecord hashText m cl db item now).1.runs = db.runs ∧
    ∃ e, (insertRecord hashText m cl db item now).2 = Except.error e := by
  by_cases hu : item.url = ""
  · refine ⟨?_, ?_, ?_, ⟨"url is required", ?_⟩⟩ <;> simp [insertRecord, hu]
  · have hs : item.source = "" := h.resolve_left hu
    refine ⟨?_, ?_, ?_, ⟨"source is required", ?_⟩⟩ <;> simp [insertRecord, hu, hs]

/-- Witness for C7 at a concrete invalid item. -/
theorem insert_record_validation_rejects_witness :
    (invalidItem.url = "" ∨ invalidItem.source = "") ∧
    ((insertRecord id emptyMatcher defaultClassifier emptyDB invalidItem "t").1.records
        = emptyDB.records ∧
     recordsFts (insertRecord id emptyMatcher defaultClassifier emptyDB invalidItem "t").1
        = recordsFts emptyDB ∧
     (insertRecord id emptyMatcher defaultClassifier emptyDB invalidItem "t").1.runs
        = emptyDB.runs ∧
     ∃ e, (insertRecord id emptyMatcher defaultClassifier emptyDB invalidItem "t").2
        = Except.error e) :=
  ⟨Or.inl rfl,
   insert_record_validation_rejects id emptyMatcher defaultClassifier emptyDB
     invalidItem "t" (Or.inl rfl)⟩

/-! ### Python `max` as first-argmax -/

theorem pyMaxFold_fixed (l : List (String × Nat)) (x : String × Nat)
    (h : ∀ q ∈ l, q.2 ≤ x.2) :
    l.foldl (fun best item => if best.2 < item.2 then item else best) x = x := by
  induction l generalizing x with
  | nil => rfl
  | cons a t ih =>
    rw [List.foldl_cons]
    have ha : a.2 ≤ x.2 := h a (by simp)
    rw [if_neg (by omega)]
    exact ih x (fun q hq => h q (by simp [hq]))

theorem pyMaxFold_reach (t : List (String × Nat)) (c : String) (mv : Nat)
    (l₂ : List (String × Nat)) :
    ∀ x : String × Nat, x.2 < mv → (∀ q ∈ t, q.2 < mv) → (∀ q ∈ l₂, q.2 ≤ mv) →
    (t ++ (c, mv) :: l₂).foldl
      (fun best item => if best.2 < item.2 then item else best) x = (c, mv) := by
  induction t with
  | nil =>
    intro x hx h1 h2
    rw [List.nil_append, List.foldl_cons]
    rw [if_pos hx]
    exact pyMaxFold_fixed l₂ (c, mv) h2
  | cons a t ih =>
    intro x hx h1 h2
    rw [List.cons_append, List.foldl_cons]
    have ha : a.2 < mv := h1 a (by simp)
    by_cases hlt : x.2 < a.2
    · rw [if_pos hlt]
      exact ih a ha (fun q hq => h1 q (by simp [hq])) h2
    · rw [if_neg hlt]
      exact ih x hx (fun q hq => h1 q (by simp [hq])) h2

theorem pyMax_first_argmax (l₁ l₂ : List (String × Nat)) (c : String) (mv : Nat)
    (h1 : ∀ q ∈ l₁, q.2 < mv) (h2 : ∀ q ∈ l₂, q.2 ≤ mv) :
    pyMax (l₁ ++ (c, mv) :: l₂) = some (c, mv) := by
  cases l₁ with
  | nil =>
    show pyMax ((c, mv) :: l₂) = _
    simp only [pyMax]
    rw [pyMaxFold_fixed l₂ (c, mv) h2]
  | cons a t =>
    show pyMax (a :: (t ++ (c, mv) :: l₂)) = _
    simp only [pyMax]
    rw [pyMaxFold_reach t c mv l₂ a (h1 a (by simp))
      (fun q hq => h1 q (by simp [hq])) h2]

theorem patternsScore_falsy (ps : List RPattern) (t sm b : Option String)
    (ht : strFalsy t = true) (hs : strFalsy sm = true) (hb : strFalsy b = true) :
    patternsScore ps t sm b = 0 := by
  have haux : ∀ (l : List RPattern) (acc : Nat),
      l.foldl (fun acc p =>
        acc +
        (if strFalsy t then 0 else findallCount p (t.getD "") * TITLE_WEIGHT) +
        (if strFalsy sm then 0 else findallCount p (sm.getD "") * SUMMARY_WEIGHT) +
        (if strFalsy b then 0 else findallCount p (b.getD "") * CONTENT_WEIGHT)) acc
      = acc := by
    intro l
    induction l with
    | nil => intro acc; rfl
    | cons p rest ih =>
      intro acc
      rw [List.foldl_cons, if_pos ht, if_pos hs, if_pos hb]
      exact ih acc
  exact haux ps 0

theorem categoryScore_falsy (rules : List (String × List RPattern)) (c : String)
    (t sm b : Option String) (ht : strFalsy t = true) (hs : strFalsy sm = true)
    (hb : strFalsy b = true) : categoryScore rules c t sm b = 0 := by
  unfold categoryScore
  cases dictGet rules c with
  | none => rfl
  | some ps => exact patternsScore_falsy ps t sm b ht hs hb

/-- C3 (amended): with no applicable metadata override and no source/URL
rule, when a category attains the strictly positive maximal weighted keyword
score and every category listed before it in `ALL_CATEGORIES` (financial,
product launches, bidding, NHSA policy, NHC policy, industry media — the
dict insertion order of the scores table) scores strictly less, `categorize`
returns that category; in particular a tie is resolved in favour of the
earlier category of that list, not of the display-with-policy-first order
the claim states. -/
theorem categorize_tie_first_in_order (cl : Classifier) (source : String)
    (title summary content url : Option String) (md : Option Metadata)
    (c : String) (l₁ l₂ : List String)
    (hsplit : ALL_CATEGORIES = l₁ ++ c :: l₂)
    (hover : checkOverride (md.getD Metadata.empty) = none)
    (hsrc : categorizeBySource cl.srcRules source url = none)
    (hpos : 0 < categoryScore cl.kwRules c title summary content)
    (h1 : ∀ c' ∈ l₁, categoryScore cl.kwRules c' title summary content <
            categoryScore cl.kwRules c title summary content)
    (h2 : ∀ c' ∈ l₂, categoryScore cl.kwRules c' title summary content ≤
            categoryScore cl.kwRules c title summary content) :
    cl.categorize source title summary content url md = c := by
  have hnf : ¬((strFalsy title && strFalsy summary && strFalsy content) = true) := by
    intro hall
    rw [Bool.and_eq_true, Bool.and_eq_true] at hall
    have h0 := categoryScore_falsy cl.kwRules c title summary content
      hall.1.1 hall.1.2 hall.2
    omega
  have hkw : categorizeByKeywordsWeighted cl.kwRules title summary content = some c := by
    unfold categorizeByKeywordsWeighted
    rw [if_neg hnf]
    have hmap : keywordScores cl.kwRules title summary content =
        (l₁.map (fun c' => (c', categoryScore cl.kwRules c' title summary content))) ++
        (c, categoryScore cl.kwRules c title summary content) ::
        (l₂.map (fun c' => (c', categoryScore cl.kwRules c' title summary content))) := by
      unfold keywordScores
      rw [hsplit, List.map_append, List.map_cons]
    rw [hmap, pyMax_first_argmax _ _ c _
      (fun q hq => by
        rcases List.mem_map.mp hq with ⟨c', hc', hq'⟩
        rw [← hq']
        exact h1 c' hc')
      (fun q hq => by
        rcases List.mem_map.mp hq with ⟨c', hc', hq'⟩
        rw [← hq']
        exact h2 c' hc')]
    dsimp only
    rw [if_pos hpos]
  simp only [Classifier.categorize, hover, hsrc, hkw]

/-- Witness for the amended C3 at the tie `title = "财报 医保局"`, where
`financial_reports` and `nhsa_policy` both score 5. -/
theorem categorize_tie_first_in_order_witness :
    Classifier.categorize defaultClassifier "x" (some "财报 医保局") none none
      none none = CATEGORY_FINANCIAL :=
  categorize_tie_first_in_order defaultClassifier "x" (some "财报 医保局")
    none none none none CATEGORY_FINANCIAL []
    [CATEGORY_PRODUCT_LAUNCH, CATEGORY_BIDDING, CATEGORY_NHSA_POLICY,
     CATEGORY_NHC_POLICY, CATEGORY_INDUSTRY_MEDIA]
    (by decide) (by decide) (by decide) (by decide)
    (by intro c' hc'; simp at hc') (by decide)

/-- Counterexample to C3 as stated: on the tie between `financial_reports`
and `nhsa_policy` (both scoring 5 on the title, no override, no source/URL
rule), `categorize` returns `financial_reports`, not the policy-body
category the claimed policy-first ordering would pick. -/
theorem categorize_tie_counterexample :
    checkOverride Metadata.empty = none ∧
    categorizeBySource defaultClassifier.srcRules "x" none = none ∧
    categoryScore defaultClassifier.kwRules CATEGORY_FINANCIAL
      (some "财报 医保局") none none = 5 ∧
    categoryScore defaultClassifier.kwRules CATEGORY_NHSA_POLICY
      (some "财报 医保局") none none = 5 ∧
    categoryScore defaultClassifier.kwRules CATEGORY_PRODUCT_LAUNCH
      (some "财报 医保局") none none = 0 ∧
    categoryScore defaultClassifier.kwRules CATEGORY_BIDDING
      (some "财报 医保局") none none = 0 ∧
    categoryScore defaultClassifier.kwRules CATEGORY_NHC_POLICY
      (some "财报 医保局") none none = 0 ∧
    categoryScore defaultClassifier.kwRules CATEGORY_INDUSTRY_MEDIA
      (some "财报 医保局") none none = 0 ∧
    Classifier.categorize defaultClassifier "x" (some "财报 医保局") none none
      none none = CATEGORY_FINANCIAL ∧
    CATEGORY_FINANCIAL ≠ CATEGORY_NHSA_POLICY := by decide

/-! ### Keyword co-occurrence (C5) -/

theorem dedupFirstAux_mem (l : List String) :
    ∀ (seen : List String) (x : String),
    x ∈ dedupFirstAux seen l ↔ x ∈ l ∧ x ∉ seen := by
  induction l with
  | nil => intro seen x; simp [dedupFirstAux]
  | cons v rest ih =>
    intro seen x
    by_cases hv : v ∈ seen
    · rw [show dedupFirstAux seen (v :: rest) = dedupFirstAux seen rest by
        simp [dedupFirstAux, hv]]
      rw [ih seen x]
      constructor
      · rintro ⟨hr, hn⟩; exact ⟨List.mem_cons_of_mem v hr, hn⟩
      · rintro ⟨hr, hn⟩
        rcases List.mem_cons.mp hr with rfl | hr'
        · exact absurd hv hn
        · exact ⟨hr', hn⟩
    · rw [show dedupFirstAux seen (v :: rest) = v :: dedupFirstAux (v :: seen) rest by
        simp [dedupFirstAux, hv]]
      rw [List.mem_cons, ih (v :: seen) x]
      constructor
      · rintro (rfl | ⟨hr, hn⟩)
        · exact ⟨List.mem_cons_self x rest, hv⟩
        · refine ⟨List.mem_cons_of_mem v hr, fun hs => hn ?_⟩
          exact List.mem_cons_of_mem v hs
      · rintro ⟨hr, hn⟩
        rcases List.mem_cons.mp hr with rfl | hr'
        · exact Or.inl rfl
        · by_cases hxv : x = v
          · exact Or.inl hxv
          · exact Or.inr ⟨hr', fun hs => by
              rcases List.mem_cons.mp hs with h' | h'
              · exact hxv h'
              · exact hn h'⟩

theorem dedupFirst_mem (l : List String) (x : String) :
    x ∈ dedupFirst l ↔ x ∈ l := by
  rw [dedupFirst, dedupFirstAux_mem]
  simp

/-- C5: in the keyword stage, a company is credited iff at least two distinct
keywords associated with it occur (case-insensitively) in the text
(`n` counts the distinct table entries for the company whose keyword occurs
and whose company is not name-blacklisted; the key-nodup hypothesis is the
Python dict invariant making these entries distinct keywords), and every
credited match scores `min (70 + n * 5) 90`; a company with exactly one
matching keyword gets no keyword match. -/
theorem keyword_cooccurrence (m : Matcher) (text : String) (bl : List String)
    (company : String)
    (hkeys : ((m.keywordLookup).map (fun kv => kv.1)).Nodup) :
    ((∃ mt ∈ m.matchKeywords text bl, mt.company_name = company) ↔
      2 ≤ ((m.matchingKeywordEntries (strLower text) bl).filter
            (fun kv => kv.2 = company)).length) ∧
    (∀ mt ∈ m.matchKeywords text bl, mt.company_name = company →
       mt.score = min (70 +
         ((m.matchingKeywordEntries (strLower text) bl).filter
           (fun kv => kv.2 = company)).length * 5) 90) := by
  set entries := m.matchingKeywordEntries (strLower text) bl with hentries
  set n := (entries.filter (fun kv => kv.2 = company)).length with hn
  have hcounts : ∀ cnk ∈ m.keywordCounts (strLower text) bl,
      cnk.1 = company → cnk.2.1 = n := by
    intro cnk hcnk hc
    unfold Matcher.keywordCounts at hcnk
    rcases List.mem_map.mp hcnk with ⟨c', _, hc'⟩
    rw [← hc']
    rw [← hc'] at hc
    simp only at hc
    rw [hc]
  constructor
  · constructor
    · rintro ⟨mt, hmt, hcomp⟩
      rcases List.mem_filterMap.mp hmt with ⟨cnk, hcnk, hg⟩
      by_cases h2 : cnk.2.1 ≥ 2
      · simp only [h2, if_pos] at hg
        have hc1 : cnk.1 = company := by
          rw [← hcomp]; cases hg; rfl
        rw [← hcounts cnk hcnk hc1]
        exact h2
      · simp [h2] at hg
    · intro h2
      have hpos : 0 < n := by omega
      have hne : (entries.filter (fun kv => kv.2 = company)) ≠ [] := by
        intro hnil
        rw [hn, hnil] at hpos
        simp at hpos
      rcases List.exists_mem_of_ne_nil _ hne with ⟨kv, hkv⟩
      have hkv' := List.mem_filter.mp hkv
      have hmem : company ∈ entries.map (fun kv => kv.2) := by
        rcases hkv' with ⟨hin, heq⟩
        have : kv.2 = company := by simpa using heq
        exact List.mem_map.mpr ⟨kv, hin, this⟩
      have hdedup : company ∈ dedupFirst (entries.map (fun kv => kv.2)) :=
        (dedupFirst_mem _ _).mpr hmem
      have hcnt : (company, n,
          (((entries.filter (fun kv => kv.2 = company)).head?.map
            (fun kv => kv.1)).getD "")) ∈ m.keywordCounts (strLower text) bl := by
        unfold Matcher.keywordCounts
        exact List.mem_map.mpr ⟨company, hdedup, rfl⟩
      refine ⟨⟨company,
          ((entries.filter (fun kv => kv.2 = company)).head?.map
            (fun kv => kv.1)).getD "",
          min (70 + n * 5) 90, "keyword"⟩,
        List.mem_filterMap.mpr ⟨_, hcnt, ?_⟩, rfl⟩
      dsimp only
      rw [if_pos h2]
  · intro mt hmt hcomp
    rcases List.mem_filterMap.mp hmt with ⟨cnk, hcnk, hg⟩
    by_cases h2 : cnk.2.1 ≥ 2
    · simp only [h2, if_pos] at hg
      have hc1 : cnk.1 = company := by
        rw [← hcomp]; cases hg; rfl
      have := hcounts cnk hcnk hc1
      cases hg
      simp only [this]
    · simp [h2] at hg

/-- Witness for C5: `Zeta` has two matching keywords and is credited with
score 80; `Solo` has one and is not credited. -/
theorem keyword_cooccurrence_witness :
    ((kwMatcher.keywordLookup.map (fun kv => kv.1)).Nodup) ∧
    (∃ mt ∈ kwMatcher.matchKeywords "alpha beta gamma" [],
       mt.company_name = "Zeta") ∧
    ¬(∃ mt ∈ kwMatcher.matchKeywords "alpha beta gamma" [],
       mt.company_name = "Solo") ∧
    (∀ mt ∈ kwMatcher.matchKeywords "alpha beta gamma" [],
       mt.company_name = "Zeta" → mt.score = 80) := by
  have hz := keyword_cooccurrence kwMatcher "alpha beta gamma" [] "Zeta" (by decide)
  have hs := keyword_cooccurrence kwMatcher "alpha beta gamma" [] "Solo" (by decide)
  refine ⟨by decide, hz.1.mpr (by decide), fun hex => ?_, fun mt hmt hc => ?_⟩
  · have := hs.1.mp hex
    revert this
    decide
  · have := hz.2 mt hmt hc
    rwa [show min (70 + ((kwMatcher.matchingKeywordEntries
        (strLower "alpha beta gamma") []).filter
        (fun kv => kv.2 = "Zeta")).length * 5) 90 = 80 from by decide] at this

/-! ### `normalize_names` (C9) -/

theorem uniquePreserveOrderAux_mem (l : List String) :
    ∀ (seen : List String) (x : String),
    x ∈ uniquePreserveOrderAux seen l ↔ x ≠ "" ∧ x ∈ l ∧ x ∉ seen := by
  induction l with
  | nil => intro seen x; simp [uniquePreserveOrderAux]
  | cons v rest ih =>
    intro seen x
    by_cases hv0 : v = ""
    · rw [show uniquePreserveOrderAux seen (v :: rest) =
          uniquePreserveOrderAux seen rest by simp [uniquePreserveOrderAux, hv0]]
      rw [ih]
      constructor
      · rintro ⟨hne, hr, hn⟩; exact ⟨hne, List.mem_cons_of_mem v hr, hn⟩
      · rintro ⟨hne, hr, hn⟩
        rcases List.mem_cons.mp hr with rfl | hr'
        · exact absurd hv0 hne
        · exact ⟨hne, hr', hn⟩
    · by_cases hvs : v ∈ seen
      · rw [show uniquePreserveOrderAux seen (v :: rest) =
            uniquePreserveOrderAux seen rest by
              simp [uniquePreserveOrderAux, hv0, hvs]]
        rw [ih]
        constructor
        · rintro ⟨hne, hr, hn⟩; exact ⟨hne, List.mem_cons_of_mem v hr, hn⟩
        · rintro ⟨hne, hr, hn⟩
          rcases List.mem_cons.mp hr with rfl | hr'
          · exact absurd hvs hn
          · exact ⟨hne, hr', hn⟩
      · rw [show uniquePreserveOrderAux seen (v :: rest) =
            v :: uniquePreserveOrderAux (v :: seen) rest by
              simp [uniquePreserveOrderAux, hv0, hvs]]
        rw [List.mem_cons, ih]
        constructor
        · rintro (rfl | ⟨hne, hr, hn⟩)
          · exact ⟨hv0, List.mem_cons_self _ _, hvs⟩
          · exact ⟨hne, List.mem_cons_of_mem _ hr,
              fun hs => hn (List.mem_cons_of_mem _ hs)⟩
        · rintro ⟨hne, hr, hn⟩
          rcases List.mem_cons.mp hr with rfl | hr'
          · exact Or.inl rfl
          · by_cases hxv : x = v
            · exact Or.inl hxv
            · exact Or.inr ⟨hne, hr', fun hs => by
                rcases List.mem_cons.mp hs with h' | h'
                · exact hxv h'
                · exact hn h'⟩

theorem uniquePreserveOrderAux_nodup (l : List String) :
    ∀ seen : List String, (uniquePreserveOrderAux seen l).Nodup := by
  induction l with
  | nil => intro seen; simp [uniquePreserveOrderAux]
  | cons v rest ih =>
    intro seen
    by_cases hv0 : v = ""
    · simpa [uniquePreserveOrderAux, hv0] using ih seen
    · by_cases hvs : v ∈ seen
      · simpa [uniquePreserveOrderAux, hv0, hvs] using ih seen
      · rw [show uniquePreserveOrderAux seen (v :: rest) =
            v :: uniquePreserveOrderAux (v :: seen) rest by
              simp [uniquePreserveOrderAux, hv0, hvs]]
        refine List.nodup_cons.mpr ⟨?_, ih (v :: seen)⟩
        intro hmem
        have := (uniquePreserveOrderAux_mem rest (v :: seen) v).mp hmem
        exact this.2.2 (List.mem_cons_self v seen)

theorem uniquePreserveOrderAux_sublist (l : List String) :
    ∀ seen : List String, (uniquePreserveOrderAux seen l).Sublist l := by
  induction l with
  | nil => intro seen; simp [uniquePreserveOrderAux]
  | cons v rest ih =>
    intro seen
    by_cases hv0 : v = ""
    · rw [show uniquePreserveOrderAux seen (v :: rest) =
          uniquePreserveOrderAux seen rest by simp [uniquePreserveOrderAux, hv0]]
      exact (ih seen).cons v
    · by_cases hvs : v ∈ seen
      · rw [show uniquePreserveOrderAux seen (v :: rest) =
            uniquePreserveOrderAux seen rest by
              simp [uniquePreserveOrderAux, hv0, hvs]]
        exact (ih seen).cons v
      · rw [show uniquePreserveOrderAux seen (v :: rest) =
            v :: uniquePreserveOrderAux (v :: seen) rest by
              simp [uniquePreserveOrderAux, hv0, hvs]]
        exact (ih (v :: seen)).cons₂ v

/-- C9: `normalize_names` passes unrecognized identifiers through verbatim
(so the output is not guaranteed to contain only directory-canonical names);
empty strings are dropped, duplicates collapse to the first occurrence, and
first-seen order is preserved (the output is a duplicate-free subsequence of
the canonicalized input containing exactly its non-empty values). -/
theorem normalize_names_pass_through (m : Matcher) (names : List String) :
    (∀ x ∈ names, m.canonicalizeName x = none → x ≠ "" →
       x ∈ m.normalizeNames names) ∧
    (m.normalizeNames names).Nodup ∧
    (∀ x ∈ m.normalizeNames names, x ≠ "") ∧
    (m.normalizeNames names).Sublist
      (names.map (fun n => pyOr (m.canonicalizeName n) n)) ∧
    (∀ y, y ∈ m.normalizeNames names ↔
       y ≠ "" ∧ y ∈ names.map (fun n => pyOr (m.canonicalizeName n) n)) := by
  have hmem : ∀ y, y ∈ m.normalizeNames names ↔
      y ≠ "" ∧ y ∈ names.map (fun n => pyOr (m.canonicalizeName n) n) := by
    intro y
    unfold Matcher.normalizeNames uniquePreserveOrder
    rw [uniquePreserveOrderAux_mem]
    simp
  refine ⟨?_, ?_, ?_, ?_, hmem⟩
  · intro x hx hcan hne
    refine (hmem x).mpr ⟨hne, List.mem_map.mpr ⟨x, hx, ?_⟩⟩
    rw [hcan]
    rfl
  · exact uniquePreserveOrderAux_nodup _ []
  · intro x hx
    exact ((hmem x).mp hx).1
  · exact uniquePreserveOrderAux_sublist _ []

/-- Witness for C9: `"acme"` canonicalizes, `""` is dropped, the unknown
identifier passes through verbatim exactly once. -/
theorem normalize_names_pass_through_witness :
    acmeMatcher.canonicalizeName "Unknown" = none ∧
    "Unknown" ∈ acmeMatcher.normalizeNames ["acme", "", "Unknown", "Unknown"] ∧
    (acmeMatcher.normalizeNames ["acme", "", "Unknown", "Unknown"]).Nodup ∧
    acmeMatcher.normalizeNames ["acme", "", "Unknown", "Unknown"] =
      ["Acme", "Unknown"] := by
  have h := normalize_names_pass_through acmeMatcher ["acme", "", "Unknown", "Unknown"]
  exact ⟨by decide,
    h.1 "Unknown" (by decide) (by decide) (by decide), h.2.1, by decide⟩

/-! ### Ingestion store: branch equations -/

theorem insertRecord_ok_eq (hashText : String → String) (m : Matcher)
    (cl : Classifier) (db : DB) (item : Item) (now : String)
    (hu : item.url ≠ "") (hs : item.source ≠ "") :
    insertRecord hashText m cl db item now =
      (⟨(insertArgs hashText m cl db item now).1,
        runsAfter db.runs item.ingestion_run_id
          (insertArgs hashText m cl db item now).2.1,
        (insertArgs hashText m cl db item now).2.2.2.2, db.nextRunId⟩,
       Except.ok
         ⟨(insertArgs hashText m cl db item now).2.1,
          (insertArgs hashText m cl db item now).2.2.1,
          (insertArgs hashText m cl db item now).2.2.2.1,
          resultMessage (insertArgs hashText m cl db item now).2.1
            (insertArgs hashText m cl db item now).2.2.2.1,
          item.ingestion_run_id⟩) := by
  unfold insertRecord
  rw [if_neg hu, if_neg hs]

theorem insertStep_insert (db : DB) (item : Item) (companies : List String)
    (category : String) (pd sa : Option String) (uh ch now : String)
    (hfu : db.records.find? (fun r => r.url_hash = uh) = none)
    (hfc : db.records.find? (fun r => r.content_hash = ch) = none) :
    insertStep db item companies category pd sa uh ch now =
      (db.records ++ [newRecordOf db item companies category pd sa uh ch now],
       "inserted", db.nextRecordId, none, db.nextRecordId + 1) := by
  unfold insertStep
  rw [hfu, hfc]

theorem insertStep_update (db : DB) (item : Item) (companies : List String)
    (category : String) (pd sa : Option String) (uh ch now : String)
    (ex : Record)
    (hfu : db.records.find? (fun r => r.url_hash = uh) = some ex)
    (hdiff : ex.content_hash ≠ ch) :
    insertStep db item companies category pd sa uh ch now =
      (updateAll db.records ex.id item companies category pd sa ch now,
       "updated", ex.id, none, db.nextRecordId) := by
  unfold insertStep
  rw [hfu]
  dsimp only
  rw [if_pos hdiff]

theorem insertStep_dup_url (db : DB) (item : Item) (companies : List String)
    (category : String) (pd sa : Option String) (uh ch now : String)
    (ex : Record)
    (hfu : db.records.find? (fun r => r.url_hash = uh) = some ex)
    (hsame : ex.content_hash = ch) :
    insertStep db item companies category pd sa uh ch now =
      (dupRefresh db.records ex.id sa item.metadata now,
       "duplicate", ex.id, some ex.id, db.nextRecordId) := by
  unfold insertStep
  rw [hfu]
  dsimp only
  rw [if_neg (fun hne => hne hsame)]

theorem insertStep_dup_content (db : DB) (item : Item) (companies : List String)
    (category : String) (pd sa : Option String) (uh ch now : String)
    (cand : Record)
    (hfu : db.records.find? (fun r => r.url_hash = uh) = none)
    (hfc : db.records.find? (fun r => r.content_hash = ch) = some cand) :
    insertStep db item companies category pd sa uh ch now =
      (dupRefresh db.records cand.id sa item.metadata now,
       "duplicate", cand.id, some cand.id, db.nextRecordId) := by
  unfold insertStep
  rw [hfu, hfc]

theorem insertStep_status (db : DB) (item : Item) (companies : List String)
    (category : String) (pd sa : Option String) (uh ch now : String) :
    (insertStep db item companies category pd sa uh ch now).2.1 = "inserted" ∨
    (insertStep db item companies category pd sa uh ch now).2.1 = "updated" ∨
    (insertStep db item companies category pd sa uh ch now).2.1 = "duplicate" := by
  unfold insertStep
  cases hfu : db.records.find? (fun r => r.url_hash = uh) with
  | some ex =>
    dsimp only
    by_cases hdiff : ex.content_hash ≠ ch
    · rw [if_pos hdiff]
      exact Or.inr (Or.inl rfl)
    · rw [if_neg hdiff]
      exact Or.inr (Or.inr rfl)
  | none =>
    cases hfc : db.records.find? (fun r => r.content_hash = ch) with
    | some cand => exact Or.inr (Or.inr rfl)
    | none => exact Or.inl rfl

theorem insertArgs_status (hashText : String → String) (m : Matcher)
    (cl : Classifier) (db : DB) (item : Item) (now : String) :
    (insertArgs hashText m cl db item now).2.1 = "inserted" ∨
    (insertArgs hashText m cl db item now).2.1 = "updated" ∨
    (insertArgs hashText m cl db item now).2.1 = "duplicate" :=
  insertStep_status db item _ _ _ _ _ _ now

theorem incrementIngestionRun_mem (runs : List IngestionRun)
    (rid t n u d : Nat) (run : IngestionRun)
    (hrun : run ∈ runs) (hid : run.id = rid) :
    ({ run with
        total_records := run.total_records + t,
        new_records := run.new_records + n,
        updated_records := run.updated_records + u,
        duplicate_records := run.duplicate_records + d } : IngestionRun) ∈
      incrementIngestionRun runs rid t n u d := by
  unfold incrementIngestionRun
  have hmm := List.mem_map_of_mem
    (fun r : IngestionRun =>
      if r.id = rid then
        { r with
          total_records := r.total_records + t,
          new_records := r.new_records + n,
          updated_records := r.updated_records + u,
          duplicate_records := r.duplicate_records + d }
      else r) hrun
  dsimp only at hmm
  rw [if_pos hid] at hmm
  exact hmm

/-- C8: a successful `insert_record` carrying an ingestion run id bumps that
run's `total` counter by exactly one and exactly the one of
`new/updated/duplicate` matching the returned status, so the invariant
`total = new + updated + duplicate` is preserved by every insert. -/
theorem run_counter_invariant (hashText : String → String) (m : Matcher)
    (cl : Classifier) (db : DB) (item : Item) (now : String) (rid : Nat)
    (run : IngestionRun)
    (hu : item.url ≠ "") (hs : item.source ≠ "")
    (hrid : item.ingestion_run_id = some rid)
    (hrun : run ∈ db.runs) (hid : run.id = rid) :
    ∃ res : RecordOperationResult,
      (insertRecord hashText m cl db item now).2 = Except.ok res ∧
      ∃ run' ∈ (insertRecord hashText m cl db item now).1.runs,
        run'.id = rid ∧
        run'.total_records = run.total_records + 1 ∧
        ((res.status = "inserted" ∧
            run'.new_records = run.new_records + 1 ∧
            run'.updated_records = run.updated_records ∧
            run'.duplicate_records = run.duplicate_records) ∨
         (res.status = "updated" ∧
            run'.new_records = run.new_records ∧
            run'.updated_records = run.updated_records + 1 ∧
            run'.duplicate_records = run.duplicate_records) ∨
         (res.status = "duplicate" ∧
            run'.new_records = run.new_records ∧
            run'.updated_records = run.updated_records ∧
            run'.duplicate_records = run.duplicate_records + 1)) ∧
        (run.total_records =
            run.new_records + run.updated_records + run.duplicate_records →
         run'.total_records =
            run'.new_records + run'.updated_records + run'.duplicate_records) := by
  rw [insertRecord_ok_eq hashText m cl db item now hu hs]
  refine ⟨_, rfl, ?_⟩
  rw [hrid]
  have hstat := insertArgs_status hashText m cl db item now
  rcases hstat with h | h | h <;> rw [h]
  · refine ⟨{ run with
        total_records := run.total_records + 1,
        new_records := run.new_records + 1,
        updated_records := run.updated_records + 0,
        duplicate_records := run.duplicate_records + 0 }, ?_, hid, rfl, ?_, ?_⟩
    · exact incrementIngestionRun_mem db.runs rid 1 1 0 0 run hrun hid
    · exact Or.inl ⟨rfl, rfl, Nat.add_zero _, Nat.add_zero _⟩
    · intro heq
      show run.total_records + 1 =
        run.new_records + 1 + (run.updated_records + 0) + (run.duplicate_records + 0)
      omega
  · refine ⟨{ run with
        total_records := run.total_records + 1,
        new_records := run.new_records + 0,
        updated_records := run.updated_records + 1,
        duplicate_records := run.duplicate_records + 0 }, ?_, hid, rfl, ?_, ?_⟩
    · exact incrementIngestionRun_mem db.runs rid 1 0 1 0 run hrun hid
    · exact Or.inr (Or.inl ⟨rfl, Nat.add_zero _, rfl, Nat.add_zero _⟩)
    · intro heq
      show run.total_records + 1 =
        run.new_records + 0 + (run.updated_records + 1) + (run.duplicate_records + 0)
      omega
  · refine ⟨{ run with
        total_records := run.total_records + 1,
        new_records := run.new_records + 0,
        updated_records := run.updated_records + 0,
        duplicate_records := run.duplicate_records + 1 }, ?_, hid, rfl, ?_, ?_⟩
    · exact incrementIngestionRun_mem db.runs rid 1 0 0 1 run hrun hid
    · exact Or.inr (Or.inr ⟨rfl, Nat.add_zero _, Nat.add_zero _, rfl⟩)
    · intro heq
      show run.total_records + 1 =
        run.new_records + 0 + (run.updated_records + 0) + (run.duplicate_records + 1)
      omega

/-- Witness for C8 at a concrete run and item. -/
theorem run_counter_invariant_witness :
    ∃ res : RecordOperationResult,
      (insertRecord id emptyMatcher defaultClassifier runDB runItem "t").2 =
        Except.ok res ∧
      ∃ run' ∈ (insertRecord id emptyMatcher defaultClassifier runDB runItem "t").1.runs,
        run'.id = 7 ∧
        run'.total_records = sampleRun.total_records + 1 ∧
        ((res.status = "inserted" ∧
            run'.new_records = sampleRun.new_records + 1 ∧
            run'.updated_records = sampleRun.updated_records ∧
            run'.duplicate_records = sampleRun.duplicate_records) ∨
         (res.status = "updated" ∧
            run'.new_records = sampleRun.new_records ∧
            run'.updated_records = sampleRun.updated_records + 1 ∧
            run'.duplicate_records = sampleRun.duplicate_records) ∨
         (res.status = "duplicate" ∧
            run'.new_records = sampleRun.new_records ∧
            run'.updated_records = sampleRun.updated_records ∧
            run'.duplicate_records = sampleRun.duplicate_records + 1)) ∧
        (sampleRun.total_records =
            sampleRun.new_records + sampleRun.updated_records +
              sampleRun.duplicate_records →
         run'.total_records =
            run'.new_records + run'.updated_records + run'.duplicate_records) :=
  run_counter_invariant id emptyMatcher defaultClassifier runDB runItem "t" 7
    sampleRun (by decide) (by decide) rfl (by decide) rfl

/-! ### Ingestion store: list helpers -/

theorem find?_append_none {α : Type} (l₁ l₂ : List α) (p : α → Bool)
    (h : l₁.find? p = none) : (l₁ ++ l₂).find? p = l₂.find? p := by
  rw [List.find?_append, h, Option.none_or]

theorem map_eq_self_of_fixed {α : Type} (l : List α) (f : α → α)
    (h : ∀ x ∈ l, f x = x) : l.map f = l := by
  induction l with
  | nil => rfl
  | cons a t ih =>
    rw [List.map_cons, h a (by simp), ih (fun x hx => h x (by simp [hx]))]

theorem dupRefresh_frame (records : List Record) (rid : Nat)
    (sa : Option String) (md : Option Metadata) (now : String) :
    ∀ r ∈ records, r.id ≠ rid → r ∈ dupRefresh records rid sa md now := by
  intro r hr hne
  unfold dupRefresh
  have hmm := List.mem_map_of_mem
    (fun r : Record =>
      if r.id = rid then
        { r with
          scraped_at := sa,
          metadata := match md with | some mj => some mj | none => r.metadata,
          updated_at := now }
      else r) hr
  dsimp only at hmm
  rw [if_neg hne] at hmm
  exact hmm

theorem dupRefresh_target (records : List Record) (rid : Nat)
    (sa : Option String) (md : Option Metadata) (now : String)
    (r : Record) (hr : r ∈ records) (hid : r.id = rid) :
    ({ r with
        scraped_at := sa,
        metadata := match md with | some mj => some mj | none => r.metadata,
        updated_at := now } : Record) ∈ dupRefresh records rid sa md now := by
  unfold dupRefresh
  have hmm := List.mem_map_of_mem
    (fun r : Record =>
      if r.id = rid then
        { r with
          scraped_at := sa,
          metadata := match md with | some mj => some mj | none => r.metadata,
          updated_at := now }
      else r) hr
  dsimp only at hmm
  rw [if_pos hid] at hmm
  exact hmm

theorem dupRefresh_length (records : List Record) (rid : Nat)
    (sa : Option String) (md : Option Metadata) (now : String) :
    (dupRefresh records rid sa md now).length = records.length := by
  unfold dupRefresh
  exact List.length_map _ _

/-- C4 (amended): on a URL hit with identical content fingerprint, the row's
title, summary, body, category, companies, source, publish date, region and
both fingerprints are untouched; only `scraped_at` and `updated_at` are
refreshed, and the stored metadata is wholly replaced by the incoming
metadata when one is supplied (`COALESCE`), kept otherwise; the result is
`duplicate` referencing that row. -/
theorem duplicate_url_frame (hashText : String → String) (m : Matcher)
    (cl : Classifier) (db : DB) (item : Item) (now : String) (ex : Record)
    (hu : item.url ≠ "") (hs : item.source ≠ "")
    (hfu : db.records.find?
      (fun r => r.url_hash = hashText (normaliseUrl item.url)) = some ex)
    (hsame : ex.content_hash =
      hashText (contentKey item.title item.summary item.content_html)) :
    (insertRecord hashText m cl db item now).1.records =
      dupRefresh db.records ex.id
        (normalizeTimestamp item.scraped_at true now) item.metadata now ∧
    (∀ r ∈ db.records, r.id ≠ ex.id →
       r ∈ (insertRecord hashText m cl db item now).1.records) ∧
    (∀ r ∈ db.records, r.id = ex.id →
       ({ r with
           scraped_at := normalizeTimestamp item.scraped_at true now,
           metadata := match item.metadata with
             | some mj => some mj
             | none => r.metadata,
           updated_at := now } : Record) ∈
         (insertRecord hashText m cl db item now).1.records) ∧
    (insertRecord hashText m cl db item now).2 =
      Except.ok ⟨"duplicate", ex.id, some ex.id,
        resultMessage "duplicate" (some ex.id), item.ingestion_run_id⟩ := by
  have hargs : insertArgs hashText m cl db item now =
      (dupRefresh db.records ex.id
        (normalizeTimestamp item.scraped_at true now) item.metadata now,
       "duplicate", ex.id, some ex.id, db.nextRecordId) :=
    insertStep_dup_url db item _ _ _ _ _ _ now ex hfu hsame
  rw [insertRecord_ok_eq hashText m cl db item now hu hs, hargs]
  refine ⟨rfl, ?_, ?_, rfl⟩
  · intro r hr hne
    exact dupRefresh_frame db.records ex.id _ item.metadata now r hr hne
  · intro r hr hid
    exact dupRefresh_target db.records ex.id _ item.metadata now r hr hid

/-- Witness for the amended C4 at a concrete duplicate hit. -/
theorem duplicate_url_frame_witness :
    (insertRecord id emptyMatcher defaultClassifier dbAfterA itemMetaB "t2").2 =
      Except.ok ⟨"duplicate", (dbAfterA.records.head (by decide)).id,
        some (dbAfterA.records.head (by decide)).id,
        resultMessage "duplicate" (some (dbAfterA.records.head (by decide)).id),
        none⟩ :=
  (duplicate_url_frame id emptyMatcher defaultClassifier dbAfterA itemMetaB "t2"
    (dbAfterA.records.head (by decide)) (by decide) (by decide) (by decide)
    (by decide)).2.2.2

/-- Counterexample to C4 as stated: the duplicate path does not merge the
incoming metadata into the stored payload — it replaces it, losing the
stored key `a` that the spec's dictionary-merge reading would keep. -/
theorem duplicate_metadata_not_merged :
    dbAfterA.records.map (fun r => r.metadata) = [some metaA] ∧
    (insertRecord id emptyMatcher defaultClassifier dbAfterA itemMetaB "t2").2 =
      Except.ok ⟨"duplicate", 1, some 1, some "duplicate of record 1", none⟩ ∧
    dbAfterB.records.map (fun r => r.metadata) = [some metaB] ∧
    dictGet metaA.extra "a" = some "1" ∧
    dictGet (specMergeMetadata metaA metaB).extra "a" = some "1" ∧
    dictGet metaB.extra "a" = none ∧
    metaB ≠ specMergeMetadata metaA metaB := by decide

theorem find?_comp_eq {α : Type} (l : List α) (p : α → Bool) (f : α → α)
    (h : ∀ x, p (f x) = p x) : l.find? (p ∘ f) = l.find? p := by
  induction l with
  | nil => rfl
  | cons a t ih =>
    by_cases ha : p a = true
    · rw [List.find?_cons_of_pos _ (show (p ∘ f) a from by
        simp only [Function.comp]
        rw [h a]
        exact ha),
        List.find?_cons_of_pos _ ha]
    · rw [List.find?_cons_of_neg _ (show ¬((p ∘ f) a = true) from by
        simp only [Function.comp]
        rw [h a]
        exact ha),
        List.find?_cons_of_neg _ ha]
      exact ih

theorem dupRefresh_find?_url (records : List Record) (rid : Nat)
    (sa : Option String) (md : Option Metadata) (now : String) (uh : String) :
    (dupRefresh records rid sa md now).find? (fun r => r.url_hash = uh) =
      (records.find? (fun r => r.url_hash = uh)).map
        (fun r => if r.id = rid then
          { r with
            scraped_at := sa,
            metadata := match md with | some mj => some mj | none => r.metadata,
            updated_at := now }
          else r) := by
  unfold dupRefresh
  rw [List.find?_map]
  rw [find?_comp_eq records _ _
    (fun r => by by_cases h : r.id = rid <;> simp [h])]

theorem dupRefresh_find?_content (records : List Record) (rid : Nat)
    (sa : Option String) (md : Option Metadata) (now : String) (ch : String) :
    (dupRefresh records rid sa md now).find? (fun r => r.content_hash = ch) =
      (records.find? (fun r => r.content_hash = ch)).map
        (fun r => if r.id = rid then
          { r with
            scraped_at := sa,
            metadata := match md with | some mj => some mj | none => r.metadata,
            updated_at := now }
          else r) := by
  unfold dupRefresh
  rw [List.find?_map]
  rw [find?_comp_eq records _ _
    (fun r => by by_cases h : r.id = rid <;> simp [h])]

/-- C10: on a cross-URL content duplicate, the incoming URL is discarded —
the hit row keeps its stored `url` and `url_hash` (only `scraped_at`,
`metadata` and `updated_at` change), the store still has no row under the
incoming URL fingerprint, the content-fingerprint lookup still resolves to
the same row, and re-ingesting the same item resolves again by content, as
a `duplicate` of the same row. -/
theorem cross_url_discards_incoming_url (hashText : String → String)
    (m : Matcher) (cl : Classifier) (db : DB) (item : Item) (now : String)
    (cand : Record)
    (hu : item.url ≠ "") (hs : item.source ≠ "")
    (hnu : ∀ r ∈ db.records, ¬r.url_hash = hashText (normaliseUrl item.url))
    (hfc : db.records.find?
      (fun r => r.content_hash =
        hashText (contentKey item.title item.summary item.content_html)) =
      some cand) :
    (insertRecord hashText m cl db item now).1.records =
      dupRefresh db.records cand.id
        (normalizeTimestamp item.scraped_at true now) item.metadata now ∧
    (∀ r ∈ db.records, r.id = cand.id →
       ({ r with
           scraped_at := normalizeTimestamp item.scraped_at true now,
           metadata := match item.metadata with
             | some mj => some mj
             | none => r.metadata,
           updated_at := now } : Record) ∈
         (insertRecord hashText m cl db item now).1.records) ∧
    (insertRecord hashText m cl db item now).2 =
      Except.ok ⟨"duplicate", cand.id, some cand.id,
        resultMessage "duplicate" (some cand.id), item.ingestion_run_id⟩ ∧
    (insertRecord hashText m cl db item now).1.records.find?
      (fun r => r.url_hash = hashText (normaliseUrl item.url)) = none ∧
    (∃ cand', (insertRecord hashText m cl db item now).1.records.find?
        (fun r => r.content_hash =
          hashText (contentKey item.title item.summary item.content_html)) =
        some cand' ∧
      cand'.id = cand.id ∧ cand'.url = cand.url ∧
      cand'.url_hash = cand.url_hash ∧ cand'.content_hash = cand.content_hash) ∧
    (insertRecord hashText m cl
        (insertRecord hashText m cl db item now).1 item now).2 =
      Except.ok ⟨"duplicate", cand.id, some cand.id,
        resultMessage "duplicate" (some cand.id), item.ingestion_run_id⟩ := by
  have hfu : db.records.find?
      (fun r => r.url_hash = hashText (normaliseUrl item.url)) = none :=
    List.find?_eq_none.mpr (fun r hr => by simpa using hnu r hr)
  have hargs : insertArgs hashText m cl db item now =
      (dupRefresh db.records cand.id
        (normalizeTimestamp item.scraped_at true now) item.metadata now,
       "duplicate", cand.id, some cand.id, db.nextRecordId) :=
    insertStep_dup_content db item _ _ _ _ _ _ now cand hfu hfc
  rw [insertRecord_ok_eq hashText m cl db item now hu hs, hargs]
  have hfu2 : (dupRefresh db.records cand.id
      (normalizeTimestamp item.scraped_at true now) item.metadata now).find?
      (fun r => r.url_hash = hashText (normaliseUrl item.url)) = none := by
    rw [dupRefresh_find?_url, hfu]
    rfl
  have hfc2 : (dupRefresh db.records cand.id
      (normalizeTimestamp item.scraped_at true now) item.metadata now).find?
      (fun r => r.content_hash =
        hashText (contentKey item.title item.summary item.content_html)) =
      some ({ cand with
        scraped_at := normalizeTimestamp item.scraped_at true now,
        metadata := match item.metadata with
          | some mj => some mj
          | none => cand.metadata,
        updated_at := now } : Record) := by
    rw [dupRefresh_find?_content, hfc]
    dsimp only [Option.map]
    rw [if_pos rfl]
  refine ⟨rfl, ?_, rfl, hfu2, ⟨_, hfc2, rfl, rfl, rfl, rfl⟩, ?_⟩
  · intro r hr hid
    exact dupRefresh_target db.records cand.id _ item.metadata now r hr hid
  · have hargs2 : insertArgs hashText m cl
        ⟨dupRefresh db.records cand.id
          (normalizeTimestamp item.scraped_at true now) item.metadata now,
         runsAfter db.runs item.ingestion_run_id "duplicate",
         db.nextRecordId, db.nextRunId⟩ item now =
        (dupRefresh (dupRefresh db.records cand.id
            (normalizeTimestamp item.scraped_at true now) item.metadata now)
          cand.id (normalizeTimestamp item.scraped_at true now) item.metadata now,
         "duplicate", cand.id, some cand.id, db.nextRecordId) := by
      have h := insertStep_dup_content
        ⟨dupRefresh db.records cand.id
          (normalizeTimestamp item.scraped_at true now) item.metadata now,
         runsAfter db.runs item.ingestion_run_id "duplicate",
         db.nextRecordId, db.nextRunId⟩ item
        (enrichRecordFields m cl item).1 (enrichRecordFields m cl item).2
        (normalizeTimestamp item.publish_date false now)
        (normalizeTimestamp item.scraped_at true now)
        (hashText (normaliseUrl item.url))
        (hashText (contentKey item.title item.summary item.content_html)) now
        _ hfu2 hfc2
      exact h
    rw [insertRecord_ok_eq hashText m cl _ item now hu hs, hargs2]

/-- Witness for C10: ingesting the same content under URL `u2` resolves as a
duplicate of the row stored under `u1`. -/
theorem cross_url_discards_incoming_url_witness :
    (insertRecord id emptyMatcher defaultClassifier dbAfter1 sampleItem2 "t2").2 =
      Except.ok ⟨"duplicate", (dbAfter1.records.head (by decide)).id,
        some (dbAfter1.records.head (by decide)).id,
        resultMessage "duplicate" (some (dbAfter1.records.head (by decide)).id),
        none⟩ :=
  (cross_url_discards_incoming_url id emptyMatcher defaultClassifier dbAfter1
    sampleItem2 "t2" (dbAfter1.records.head (by decide)) (by decide) (by decide)
    (by decide) (by decide)).2.2.1

/-- C2: ingesting two valid items with different URLs but identical title,
summary and body into a store containing neither URL nor the content
fingerprint stores exactly one row: the first call returns `inserted`, the
second returns `duplicate` referencing the first row's id, and the row count
grows by exactly one (assuming the fingerprint hash is collision-free on the
inputs involved). -/
theorem cross_url_dedup (hashText : String → String) (m : Matcher)
    (cl : Classifier) (db : DB) (i1 i2 : Item) (now1 now2 : String)
    (hInj : Function.Injective hashText)
    (hu1 : i1.url ≠ "") (hs1 : i1.source ≠ "")
    (hu2 : i2.url ≠ "") (hs2 : i2.source ≠ "")
    (hurl : i1.url ≠ i2.url)
    (ht : i1.title = i2.title) (hsm : i1.summary = i2.summary)
    (hb : i1.content_html = i2.content_html)
    (hfresh : ∀ r ∈ db.records,
      r.url_hash ≠ hashText (normaliseUrl i1.url) ∧
      r.url_hash ≠ hashText (normaliseUrl i2.url) ∧
      r.content_hash ≠
        hashText (contentKey i1.title i1.summary i1.content_html)) :
    (insertRecord hashText m cl db i1 now1).2 =
      Except.ok ⟨"inserted", db.nextRecordId, none,
        resultMessage "inserted" none, i1.ingestion_run_id⟩ ∧
    (insertRecord hashText m cl
        (insertRecord hashText m cl db i1 now1).1 i2 now2).2 =
      Except.ok ⟨"duplicate", db.nextRecordId, some db.nextRecordId,
        resultMessage "duplicate" (some db.nextRecordId), i2.ingestion_run_id⟩ ∧
    (insertRecord hashText m cl
        (insertRecord hashText m cl db i1 now1).1 i2 now2).1.records.length =
      db.records.length + 1 := by
  have hfu1 : db.records.find?
      (fun r => r.url_hash = hashText (normaliseUrl i1.url)) = none :=
    List.find?_eq_none.mpr (fun r hr => by simpa using (hfresh r hr).1)
  have hfc1 : db.records.find?
      (fun r => r.content_hash =
        hashText (contentKey i1.title i1.summary i1.content_html)) = none :=
    List.find?_eq_none.mpr (fun r hr => by simpa using (hfresh r hr).2.2)
  have hargs1 : insertArgs hashText m cl db i1 now1 =
      (db.records ++
        [newRecordOf db i1 (enrichRecordFields m cl i1).1
          (enrichRecordFields m cl i1).2
          (normalizeTimestamp i1.publish_date false now1)
          (normalizeTimestamp i1.scraped_at true now1)
          (hashText (normaliseUrl i1.url))
          (hashText (contentKey i1.title i1.summary i1.content_html)) now1],
       "inserted", db.nextRecordId, none, db.nextRecordId + 1) :=
    insertStep_insert db i1 _ _ _ _ _ _ now1 hfu1 hfc1
  have hck : contentKey i2.title i2.summary i2.content_html =
      contentKey i1.title i1.summary i1.content_html := by
    rw [ht, hsm, hb]
  rw [insertRecord_ok_eq hashText m cl db i1 now1 hu1 hs1, hargs1]
  set nr := newRecordOf db i1 (enrichRecordFields m cl i1).1
    (enrichRecordFields m cl i1).2
    (normalizeTimestamp i1.publish_date false now1)
    (normalizeTimestamp i1.scraped_at true now1)
    (hashText (normaliseUrl i1.url))
    (hashText (contentKey i1.title i1.summary i1.content_html)) now1 with hnr
  refine ⟨rfl, ?_⟩
  set db1 : DB := ⟨db.records ++ [nr],
    runsAfter db.runs i1.ingestion_run_id "inserted",
    db.nextRecordId + 1, db.nextRunId⟩ with hdb1
  have hnrid : nr.id = db.nextRecordId := rfl
  have hnruh : nr.url_hash = hashText (normaliseUrl i1.url) := rfl
  have hnrch : nr.content_hash =
      hashText (contentKey i1.title i1.summary i1.content_html) := rfl
  by_cases hnorm : normaliseUrl i2.url = normaliseUrl i1.url
  · -- same normalized URL: resolved by the URL lookup
    have hfu2 : db1.records.find?
        (fun r => r.url_hash = hashText (normaliseUrl i2.url)) = some nr := by
      show (db.records ++ [nr]).find? _ = some nr
      rw [find?_append_none db.records [nr] _
        (List.find?_eq_none.mpr (fun r hr => by
          simpa using (hfresh r hr).2.1))]
      exact List.find?_cons_of_pos _ (by
        rw [hnorm]
        simp [hnruh])
    have hargs2 : insertArgs hashText m cl db1 i2 now2 =
        (dupRefresh db1.records nr.id
          (normalizeTimestamp i2.scraped_at true now2) i2.metadata now2,
         "duplicate", nr.id, some nr.id, db1.nextRecordId) :=
      insertStep_dup_url db1 i2 _ _ _ _ _ _ now2 nr hfu2 (by
        rw [hnrch, hck])
    rw [insertRecord_ok_eq hashText m cl db1 i2 now2 hu2 hs2, hargs2]
    refine ⟨rfl, ?_⟩
    show (dupRefresh db1.records nr.id _ i2.metadata now2).length =
      db.records.length + 1
    rw [dupRefresh_length]
    show (db.records ++ [nr]).length = db.records.length + 1
    simp
  · -- different normalized URLs: URL lookup misses, content lookup hits
    have hfu2 : db1.records.find?
        (fun r => r.url_hash = hashText (normaliseUrl i2.url)) = none := by
      show (db.records ++ [nr]).find? _ = none
      refine List.find?_eq_none.mpr (fun r hr => ?_)
      rcases List.mem_append.mp hr with hr' | hr'
      · simpa using (hfresh r hr').2.1
      · have : r = nr := by simpa using hr'
        subst this
        simp only [hnruh]
        intro hc
        have := hInj (by simpa using hc)
        exact hnorm this.symm
    have hfc2 : db1.records.find?
        (fun r => r.content_hash =
          hashText (contentKey i2.title i2.summary i2.content_html)) =
        some nr := by
      show (db.records ++ [nr]).find? _ = some nr
      rw [find?_append_none db.records [nr] _
        (List.find?_eq_none.mpr (fun r hr => by
          rw [hck]
          simpa using (hfresh r hr).2.2))]
      exact List.find?_cons_of_pos _ (by
        rw [hck]
        simp [hnrch])
    have hargs2 : insertArgs hashText m cl db1 i2 now2 =
        (dupRefresh db1.records nr.id
          (normalizeTimestamp i2.scraped_at true now2) i2.metadata now2,
         "duplicate", nr.id, some nr.id, db1.nextRecordId) :=
      insertStep_dup_content db1 i2 _ _ _ _ _ _ now2 nr hfu2 hfc2
    rw [insertRecord_ok_eq hashText m cl db1 i2 now2 hu2 hs2, hargs2]
    refine ⟨rfl, ?_⟩
    show (dupRefresh db1.records nr.id _ i2.metadata now2).length =
      db.records.length + 1
    rw [dupRefresh_length]
    show (db.records ++ [nr]).length = db.records.length + 1
    simp

/-- Witness for C2 at the spec's concrete alert scenario. -/
theorem cross_url_dedup_witness :
    (insertRecord id emptyMatcher defaultClassifier emptyDB sampleItem1 "t1").2 =
      Except.ok ⟨"inserted", 1, none, resultMessage "inserted" none, none⟩ ∧
    (insertRecord id emptyMatcher defaultClassifier
        (insertRecord id emptyMatcher defaultClassifier emptyDB sampleItem1 "t1").1
        sampleItem2 "t2").2 =
      Except.ok ⟨"duplicate", 1, some 1,
        resultMessage "duplicate" (some 1), none⟩ ∧
    (insertRecord id emptyMatcher defaultClassifier
        (insertRecord id emptyMatcher defaultClassifier emptyDB sampleItem1 "t1").1
        sampleItem2 "t2").1.records.length = emptyDB.records.length + 1 :=
  cross_url_dedup id emptyMatcher defaultClassifier emptyDB sampleItem1
    sampleItem2 "t1" "t2" (fun a b h => h) (by decide) (by decide) (by decide)
    (by decide) (by decide) (by decide) (by decide) (by decide)
    (by intro r hr; simp [emptyDB] at hr)

theorem insert_iter_stable (hashText : String → String) (m : Matcher)
    (cl : Classifier) (db : DB) (item : Item) (now : String)
    (hu : item.url ≠ "") (hs : item.source ≠ "")
    (hfreshU : ∀ r ∈ db.records, r.url_hash ≠ hashText (normaliseUrl item.url))
    (hfreshId : ∀ r ∈ db.records, r.id ≠ db.nextRecordId)
    (db' : DB)
    (hrec : db'.records = db.records ++
      [newRecordOf db item (enrichRecordFields m cl item).1
        (enrichRecordFields m cl item).2
        (normalizeTimestamp item.publish_date false now)
        (normalizeTimestamp item.scraped_at true now)
        (hashText (normaliseUrl item.url))
        (hashText (contentKey item.title item.summary item.content_html)) now]) :
    (insertRecord hashText m cl db' item now).1.records = db'.records ∧
    (insertRecord hashText m cl db' item now).2 =
      Except.ok ⟨"duplicate", db.nextRecordId, some db.nextRecordId,
        resultMessage "duplicate" (some db.nextRecordId),
        item.ingestion_run_id⟩ := by
  set nr := newRecordOf db item (enrichRecordFields m cl item).1
    (enrichRecordFields m cl item).2
    (normalizeTimestamp item.publish_date false now)
    (normalizeTimestamp item.scraped_at true now)
    (hashText (normaliseUrl item.url))
    (hashText (contentKey item.title item.summary item.content_html)) now with hnr
  have hfu' : db'.records.find?
      (fun r => r.url_hash = hashText (normaliseUrl item.url)) = some nr := by
    rw [hrec]
    rw [find?_append_none db.records [nr] _
      (List.find?_eq_none.mpr (fun r hr => by simpa using hfreshU r hr))]
    exact List.find?_cons_of_pos _ (by simp [hnr, newRecordOf])
  have hargs : insertArgs hashText m cl db' item now =
      (dupRefresh db'.records nr.id
        (normalizeTimestamp item.scraped_at true now) item.metadata now,
       "duplicate", nr.id, some nr.id, db'.nextRecordId) :=
    insertStep_dup_url db' item _ _ _ _ _ _ now nr hfu' rfl
  have hdupid : dupRefresh db'.records nr.id
      (normalizeTimestamp item.scraped_at true now) item.metadata now =
      db'.records := by
    rw [hrec]
    unfold dupRefresh
    apply map_eq_self_of_fixed
    intro x hx
    rcases List.mem_append.mp hx with hx' | hx'
    · rw [if_neg (show x.id ≠ nr.id from hfreshId x hx')]
    · have hxnr : x = nr := by simpa using hx'
      subst hxnr
      rw [if_pos rfl]
      have hX : (match item.metadata with
          | some mj => some mj
          | none => nr.metadata) = nr.metadata := by
        rcases hmd : item.metadata with _ | mj
        · rfl
        · show some mj = item.metadata
          exact hmd.symm
      rw [hX]
      rfl
  rw [insertRecord_ok_eq hashText m cl db' item now hu hs, hargs]
  exact ⟨hdupid, rfl⟩

/-- C1: for a valid item against a store containing neither its URL
fingerprint nor its content fingerprint (and not its autoincrement id), the
first `insert_record` returns `inserted` with the fresh row id; after any
`n ≥ 1` identical calls the table holds exactly the original rows plus that
single new row, and every subsequent call returns `duplicate` referencing
the id the first call returned. -/
theorem insert_idempotent (hashText : String → String) (m : Matcher)
    (cl : Classifier) (db : DB) (item : Item) (now : String)
    (hu : item.url ≠ "") (hs : item.source ≠ "")
    (hfresh : ∀ r ∈ db.records,
      r.url_hash ≠ hashText (normaliseUrl item.url) ∧
      r.content_hash ≠
        hashText (contentKey item.title item.summary item.content_html) ∧
      r.id ≠ db.nextRecordId) :
    (insertRecord hashText m cl db item now).2 =
      Except.ok ⟨"inserted", db.nextRecordId, none,
        resultMessage "inserted" none, item.ingestion_run_id⟩ ∧
    (∀ n, 1 ≤ n →
      (insertIter hashText m cl item now db n).records = db.records ++
        [newRecordOf db item (enrichRecordFields m cl item).1
          (enrichRecordFields m cl item).2
          (normalizeTimestamp item.publish_date false now)
          (normalizeTimestamp item.scraped_at true now)
          (hashText (normaliseUrl item.url))
          (hashText (contentKey item.title item.summary item.content_html)) now] ∧
      (insertIter hashText m cl item now db n).records.length =
        db.records.length + 1 ∧
      (insertRecord hashText m cl (insertIter hashText m cl item now db n)
          item now).2 =
        Except.ok ⟨"duplicate", db.nextRecordId, some db.nextRecordId,
          resultMessage "duplicate" (some db.nextRecordId),
          item.ingestion_run_id⟩) := by
  have hfreshU : ∀ r ∈ db.records,
      r.url_hash ≠ hashText (normaliseUrl item.url) :=
    fun r hr => (hfresh r hr).1
  have hfreshId : ∀ r ∈ db.records, r.id ≠ db.nextRecordId :=
    fun r hr => (hfresh r hr).2.2
  have hfu : db.records.find?
      (fun r => r.url_hash = hashText (normaliseUrl item.url)) = none :=
    List.find?_eq_none.mpr (fun r hr => by simpa using hfreshU r hr)
  have hfc : db.records.find?
      (fun r => r.content_hash =
        hashText (contentKey item.title item.summary item.content_html)) =
      none :=
    List.find?_eq_none.mpr (fun r hr => by simpa using (hfresh r hr).2.1)
  have hargs1 : insertArgs hashText m cl db item now =
      (db.records ++
        [newRecordOf db item (enrichRecordFields m cl item).1
          (enrichRecordFields m cl item).2
          (normalizeTimestamp item.publish_date false now)
          (normalizeTimestamp item.scraped_at true now)
          (hashText (normaliseUrl item.url))
          (hashText (contentKey item.title item.summary item.content_html)) now],
       "inserted", db.nextRecordId, none, db.nextRecordId + 1) :=
    insertStep_insert db item _ _ _ _ _ _ now hfu hfc
  have hP : ∀ n, 1 ≤ n →
      (insertIter hashText m cl item now db n).records = db.records ++
        [newRecordOf db item (enrichRecordFields m cl item).1
          (enrichRecordFields m cl item).2
          (normalizeTimestamp item.publish_date false now)
          (normalizeTimestamp item.scraped_at true now)
          (hashText (normaliseUrl item.url))
          (hashText (contentKey item.title item.summary item.content_html)) now] := by
    intro n hn
    induction n with
    | zero => omega
    | succ k ih =>
      by_cases hk : 1 ≤ k
      · have hrec := ih hk
        show (insertRecord hashText m cl
          (insertIter hashText m cl item now db k) item now).1.records = _
        rw [(insert_iter_stable hashText m cl db item now hu hs hfreshU
          hfreshId _ hrec).1, hrec]
      · have hk0 : k = 0 := by omega
        subst hk0
        show (insertRecord hashText m cl db item now).1.records = _
        rw [insertRecord_ok_eq hashText m cl db item now hu hs, hargs1]
  constructor
  · rw [insertRecord_ok_eq hashText m cl db item now hu hs, hargs1]
  · intro n hn
    refine ⟨hP n hn, ?_, (insert_iter_stable hashText m cl db item now hu hs
      hfreshU hfreshId _ (hP n hn)).2⟩
    rw [hP n hn]
    simp

/-- Witness for C1: two identical ingests into the empty store leave one
row, and a third call still reports a duplicate of row 1. -/
theorem insert_idempotent_witness :
    (insertRecord id emptyMatcher defaultClassifier emptyDB sampleItem1 "t1").2 =
      Except.ok ⟨"inserted", 1, none, resultMessage "inserted" none, none⟩ ∧
    (insertIter id emptyMatcher defaultClassifier sampleItem1 "t1" emptyDB
        2).records.length = emptyDB.records.length + 1 ∧
    (insertRecord id emptyMatcher defaultClassifier
        (insertIter id emptyMatcher defaultClassifier sampleItem1 "t1" emptyDB 2)
        sampleItem1 "t1").2 =
      Except.ok ⟨"duplicate", 1, some 1,
        resultMessage "duplicate" (some 1), none⟩ := by
  have h := insert_idempotent id emptyMatcher defaultClassifier emptyDB
    sampleItem1 "t1" (by decide) (by decide)
    (by intro r hr; simp [emptyDB] at hr)
  exact ⟨h.1, (h.2 2 (by omega)).2.1, (h.2 2 (by omega)).2.2⟩

end IVD
